import Mathlib

/-! # Time events of the scheduler (`controller/event.go`)

A shallow embedding of `newEvent`, the five event variants and the waiter
protocol, together with the part of Go's `time` package they call.

Conventions of the embedding.

* A `time.Time` is an instant, counted in nanoseconds since
  January 1 of year 1, 00:00:00 UTC (Go's internal epoch), plus a location.
  Instants are unbounded integers.
* A `time.Location` is an offset east of UTC and the zone transitions that
  change it, in ascending order of time; `time.UTC` and `time.FixedZone`
  have none. `time.Date` looks the offset up as Go's does.
* A `time.Duration` is a signed 64-bit count of nanoseconds; `Time.Sub`
  saturates at the ends of that range as Go's does.
* A Go pointer that may be nil is an `Option`; a nil dereference makes the
  function return `none`.
-/

namespace Scheduler

/-! ## The `time` package -/

/-- The smallest `time.Duration`. -/
def minDuration : Int := -9223372036854775808

/-- The largest `time.Duration`. -/
def maxDuration : Int := 9223372036854775807

/-- Nanoseconds in `time.Second`. -/
def Second : Int := 1000000000

/-- Nanoseconds in `time.Minute`. -/
def Minute : Int := 60 * Second

/-- Nanoseconds in `time.Hour`. -/
def Hour : Int := 60 * Minute

/-- Seconds in a day (`secondsPerDay`). -/
def secondsPerDay : Int := 86400

/-- A location (`time.Location`): the offset, in seconds east of UTC, in
force before the first zone transition, and the zone transitions in
ascending order of time, each the instant it happens at (in seconds since
the epoch of the embedding) and the offset in force from then on. A zone of
the time zone database is such a list over any span of years. The names of
the zones, the cache of the last lookup and the rule for the years after
the last transition (`extend`) are left out: a location keeps its last
offset. -/
structure Location where
  offset : Int
  tx : List (Int × Int)
deriving DecidableEq, Repr

/-- The function `time.FixedZone`: the location that always has `offset`. -/
def FixedZone (offset : Int) : Location := ⟨offset, []⟩

/-- The location `time.UTC`. -/
def UTC : Location := ⟨0, []⟩

/-- The search of `lookup`, from the offset in force and the start of its
span: the last transition at or before `sec` decides. The transitions are
gone through in order, which on transitions in ascending order finds what
the binary search of `lookup` finds. -/
def Location.lookupFrom (offset : Int) (start : Option Int) :
    List (Int × Int) → Int → Int × Option Int × Option Int
  | [], _ => (offset, start, none)
  | tr :: rest, sec =>
    if sec < tr.1 then (offset, start, some tr.1)
    else Location.lookupFrom tr.2 (some tr.1) rest sec

/-- The method `(*Location).lookup`: the offset in force at instant `sec`,
and the start and the end of the span it is in force for, `none` where Go
has `alpha` or `omega` for a span without that bound. -/
def Location.lookup (l : Location) (sec : Int) : Int × Option Int × Option Int :=
  Location.lookupFrom l.offset none l.tx sec

/-- An instant with its location. -/
structure Time where
  ns : Int
  loc : Location
deriving DecidableEq, Repr

/-- Leap years of the proleptic Gregorian calendar (`isLeap`). -/
def isLeap (year : Int) : Bool :=
  year % 4 == 0 && (year % 100 != 0 || year % 400 == 0)

/-- The table `daysBefore`: days of a non-leap year before month `m + 1`. -/
def daysBefore (m : Int) : Int :=
  [0, 31, 59, 90, 120, 151, 181, 212, 243, 273, 304, 334, 365].getD m.toNat 0

/-- Days from the epoch to January 1 of `year` (`daysSinceEpoch`). -/
def daysSinceEpoch (year : Int) : Int :=
  let y := year - 1
  let n := y / 400
  let y := y - 400 * n
  let d := 146097 * n
  let n := y / 100
  let y := y - 100 * n
  let d := d + 36524 * n
  let n := y / 4
  let y := y - 4 * n
  let d := d + 1461 * n
  d + 365 * y

/-- Year and day of the year of a day count (`absDate`, first half). -/
def absYear (days : Int) : Int × Int :=
  let d := days
  let n := d / 146097
  let y := 400 * n
  let d := d - 146097 * n
  let n := d / 36524
  let n := n - n / 4
  let y := y + 100 * n
  let d := d - 36524 * n
  let n := d / 1461
  let y := y + 4 * n
  let d := d - 1461 * n
  let n := d / 365
  let n := n - n / 4
  let y := y + n
  let d := d - 365 * n
  (y + 1, d)

/-- Month and day of the month of a day of the year (`absDate`, second
half). -/
def monthDay (leap : Bool) (yday : Int) : Int × Int :=
  if leap && yday == 31 + 29 - 1 then (2, 29)
  else
    let day := if leap && yday > 31 + 29 - 1 then yday - 1 else yday
    let month := day / 31
    let stop := daysBefore (month + 1)
    if day ≥ stop then (month + 1 + 1, day - stop + 1)
    else (month + 1, day - daysBefore month + 1)

/-- Year, month, day of a day count (`absDate`). -/
def absDate (days : Int) : Int × Int × Int :=
  let (year, yday) := absYear days
  let (month, day) := monthDay (isLeap year) yday
  (year, month, day)

/-- Seconds since the epoch on the wall clock of the location (`abs`). -/
def Time.abs (t : Time) : Int :=
  t.ns / 1000000000 + (t.loc.lookup (t.ns / 1000000000)).1

/-- Calendar year of `t` in its location. -/
def Time.Year (t : Time) : Int := (absDate (t.abs / secondsPerDay)).1

/-- Calendar month of `t` in its location, 1 to 12. -/
def Time.Month (t : Time) : Int := (absDate (t.abs / secondsPerDay)).2.1

/-- Day of the month of `t` in its location. -/
def Time.Day (t : Time) : Int := (absDate (t.abs / secondsPerDay)).2.2

/-- Hour of the day of `t`, 0 to 23. -/
def Time.Hour (t : Time) : Int := t.abs % secondsPerDay / 3600

/-- Minute of the hour of `t`, 0 to 59. -/
def Time.Minute (t : Time) : Int := t.abs % 3600 / 60

/-- Second of the minute of `t`, 0 to 59. -/
def Time.Second (t : Time) : Int := t.abs % 60

/-- Nanosecond within the second of `t`. -/
def Time.Nanosecond (t : Time) : Int := t.ns % 1000000000

/-- The function `norm`: carry `lo` into `hi` so that `0 ≤ lo < base`. -/
def norm (hi lo base : Int) : Int × Int :=
  let (hi, lo) :=
    if lo < 0 then
      let n := (-lo - 1) / base + 1
      (hi - n, lo + n * base)
    else (hi, lo)
  if lo ≥ base then
    let n := lo / base
    (hi + n, lo - n * base)
  else (hi, lo)

/-- The test `utc < start` of `time.Date`, false where the span has no
start. -/
def beforeStart (utc : Int) : Option Int → Bool
  | none => false
  | some start => decide (utc < start)

/-- The test `utc >= end` of `time.Date`, false where the span has no
end. -/
def reachedEnd (utc : Int) : Option Int → Bool
  | none => false
  | some stop => decide (utc ≥ stop)

/-- The function `time.Date`: the instant of a wall-clock reading in `loc`,
out-of-range fields being carried over. The offset is looked up at the
reading taken as UTC, and looked up again at the instant that offset gives
when that instant is outside the span of the offset. -/
def Date (year month day hour min sec nsec : Int) (loc : Location) : Time :=
  let m := month - 1
  let (year, m) := norm year m 12
  let month := m + 1
  let (sec, nsec) := norm sec nsec 1000000000
  let (min, sec) := norm min sec 60
  let (hour, min) := norm hour min 60
  let (day, hour) := norm day hour 24
  let d := daysSinceEpoch year
  let d := d + daysBefore (month - 1)
  let d := if isLeap year && month ≥ 3 then d + 1 else d
  let d := d + (day - 1)
  let abs := d * secondsPerDay + (hour * 3600 + min * 60 + sec)
  let unix := abs
  let (offset, start, stop) := loc.lookup unix
  let unix :=
    if offset ≠ 0 then
      let utc := unix - offset
      let offset :=
        if beforeStart utc start || reachedEnd utc stop then (loc.lookup utc).1 else offset
      unix - offset
    else unix
  ⟨unix * 1000000000 + nsec, loc⟩

/-- The day count that `Date` computes from a year, a month and a day (its
lines between the carrying over and the time of day). -/
def dayCount (year month day : Int) : Int :=
  daysSinceEpoch year + daysBefore (month - 1)
    + (if isLeap year && month ≥ 3 then 1 else 0) + (day - 1)

/-- The method `Time.Sub`: the difference as a `Duration`, saturated. -/
def Time.Sub (t u : Time) : Int :=
  let d := t.ns - u.ns
  if d < minDuration then minDuration
  else if d > maxDuration then maxDuration
  else d

/-- The method `Time.Add`. -/
def Time.Add (t : Time) (d : Int) : Time := ⟨t.ns + d, t.loc⟩

/-- The method `Time.AddDate`. -/
def Time.AddDate (t : Time) (years months days : Int) : Time :=
  Date (t.Year + years) (t.Month + months) (t.Day + days)
    t.Hour t.Minute t.Second t.Nanosecond t.loc

/-! ### Parsing (`time.Parse`, `time.ParseInLocation`)

The program uses two layouts, `2006-01-02 15:04:05` and `15:04:05`; the
parser is Go's, followed element by element for these two. -/

/-- The fields that `time.Parse` collects before it builds the instant. -/
structure Fields where
  year : Int
  month : Int
  day : Int
  hour : Int
  min : Int
  sec : Int
  nsec : Int
deriving DecidableEq, Repr

/-- Is the character a decimal digit. -/
def digit (c : Char) : Bool := '0' ≤ c && c ≤ '9'

/-- The value of a decimal digit. -/
def digitVal (c : Char) : Int := (c.toNat : Int) - 48

/-- The helper `isDigit`: is there a decimal digit at index `i` of `s`. -/
def isDigit (s : List Char) (i : Nat) : Bool :=
  match s.get? i with
  | some c => digit c
  | none => false

/-- The value of a run of decimal digits (`atoi` on digits). -/
def atoi (s : List Char) : Int := s.foldl (fun x c => x * 10 + digitVal c) 0

/-- The helper `getnum`: a one- or two-digit number at the head of `s`;
two digits are required when `fixed`. -/
def getnum (s : List Char) (fixed : Bool) : Except String (Int × List Char) :=
  if !isDigit s 0 then .error "bad value"
  else if !isDigit s 1 then
    if fixed then .error "bad value"
    else .ok (atoi (s.take 1), s.drop 1)
  else .ok (atoi (s.take 2), s.drop 2)

/-- The helper `skip` for a layout text of one character other than a
space. -/
def skipChar (value : List Char) (c : Char) : Except String (List Char) :=
  match value with
  | v :: rest => if v = c then .ok rest else .error "bad value"
  | [] => .error "bad value"

/-- The helper `skip` for a layout text of one space: a run of spaces in
the value, or its end. -/
def skipSpace (value : List Char) : Except String (List Char) :=
  match value with
  | v :: _ => if v ≠ ' ' then .error "bad value" else .ok (value.dropWhile (· = ' '))
  | [] => .ok []

/-- The four-digit year of layout element `2006`. -/
def getYear (value : List Char) : Except String (Int × List Char) :=
  if value.length < 4 || !isDigit value 0 then .error "bad value"
  else if (value.take 4).all digit then .ok (atoi (value.take 4), value.drop 4)
  else .error "bad value"

/-- A fractional second in the value that the layout does not announce:
a period or comma and digits, of which nine count (`parseNanoseconds`). -/
def getFraction (value : List Char) : Int × List Char :=
  match value with
  | c :: rest =>
    if (c = '.' || c = ',') && isDigit rest 0 then
      let ds := (rest.takeWhile digit).take 9
      (atoi ds * 10 ^ (9 - ds.length), rest.dropWhile digit)
    else (0, value)
  | [] => (0, value)

/-- The elements `15:04:05` of a layout, read from the head of `value`:
hour, minute, second, nanosecond and the text left over. -/
def getClock (value : List Char) : Except String (Int × Int × Int × Int × List Char) :=
  match getnum value false with
  | .error e => .error e
  | .ok (hour, value) =>
    if hour < 0 || 24 ≤ hour then .error "hour out of range"
    else match skipChar value ':' with
    | .error e => .error e
    | .ok value =>
      match getnum value true with
      | .error e => .error e
      | .ok (min, value) =>
        if min < 0 || 60 ≤ min then .error "minute out of range"
        else match skipChar value ':' with
        | .error e => .error e
        | .ok value =>
          match getnum value true with
          | .error e => .error e
          | .ok (sec, value) =>
            if sec < 0 || 60 ≤ sec then .error "second out of range"
            else .ok (hour, min, sec, (getFraction value).1, (getFraction value).2)

/-- The fields read from `value` under layout `15:04:05`; what the layout
lacks is zero or, where zero is impossible, one. -/
def clockFields (value : List Char) : Except String Fields :=
  match getClock value with
  | .error e => .error e
  | .ok (hour, min, sec, nsec, value) =>
    if value.length ≠ 0 then .error "extra text"
    else .ok ⟨0, 1, 1, hour, min, sec, nsec⟩

/-- The fields read from `value` under layout `2006-01-02 15:04:05`. -/
def dateTimeFields (value : List Char) : Except String Fields :=
  match getYear value with
  | .error e => .error e
  | .ok (year, value) =>
    match skipChar value '-' with
    | .error e => .error e
    | .ok value =>
      match getnum value true with
      | .error e => .error e
      | .ok (month, value) =>
        if month ≤ 0 || 12 < month then .error "month out of range"
        else match skipChar value '-' with
        | .error e => .error e
        | .ok value =>
          match getnum value true with
          | .error e => .error e
          | .ok (day, value) =>
            match skipSpace value with
            | .error e => .error e
            | .ok value =>
              match getClock value with
              | .error e => .error e
              | .ok (hour, min, sec, nsec, value) =>
                if value.length ≠ 0 then .error "extra text"
                else .ok ⟨year, month, day, hour, min, sec, nsec⟩

/-- The helper `daysIn`: days of month `m` in `year`. -/
def daysIn (m year : Int) : Int :=
  if m = 2 && isLeap year then 29 else daysBefore m - daysBefore (m - 1)

/-- The fields that `time.Parse` reads from `value` under `layout`. -/
def parseFields (layout value : String) : Except String Fields :=
  if layout = "2006-01-02 15:04:05" then dateTimeFields value.toList
  else if layout = "15:04:05" then clockFields value.toList
  else .error "layout outside the embedding"

/-- The function `time.ParseInLocation`: the fields, the check of the day of
the month, then `Date` in `loc`. -/
def ParseInLocation (layout value : String) (loc : Location) : Except String Time :=
  match parseFields layout value with
  | .error e => .error e
  | .ok f =>
    if f.day < 1 || f.day > daysIn f.month f.year then .error "day out of range"
    else .ok (Date f.year f.month f.day f.hour f.min f.sec f.nsec loc)

/-- The function `time.Parse`: as `ParseInLocation` in UTC. -/
def Parse (layout value : String) : Except String Time :=
  ParseInLocation layout value UTC

/-! ## What `event.go` takes from the rest of the repository -/

/-- Modelled from the spec: the specification record `model.Event` of package
`model`, which is not among the sources at hand: a rule and its
parameter. -/
structure model.Event where
  Rule : String
  Param : String
deriving DecidableEq, Repr

/-- A callback that `AfterFunc` has scheduled. The one callback that
`event.go` schedules sends the clock's now into a channel, so a callback is
the instant it is due at and the channel it sends to. -/
structure Timer where
  due : Int
  ch : Nat
deriving DecidableEq, Repr

/-- Modelled from the spec: the process-wide `clock`, which is declared
outside `event.go`: its now, its location and the callbacks scheduled and
not yet run. It is the manually advanced clock of the tests, without
jitter. -/
structure Clock where
  now : Time
  location : Location
  timers : List Timer
deriving DecidableEq, Repr

/-- A buffered channel of `time.Time`: its capacity and the values it
holds, oldest first. -/
structure Chan where
  cap : Nat
  buf : List Time
deriving DecidableEq, Repr

/-- The state around an event: the clock and the channels made so far, a
channel being known by its index. -/
structure World where
  clock : Clock
  chans : List Chan
deriving DecidableEq, Repr

/-- The statement `make(chan time.Time, cap)`. -/
def World.makeChan (w : World) (cap : Nat) : Nat × World :=
  (w.chans.length, { w with chans := w.chans ++ [⟨cap, []⟩] })

/-- The statement `ch <- v`; `none` when the channel is full and the send
would wait. -/
def World.send (w : World) (ch : Nat) (v : Time) : Option World :=
  match w.chans.get? ch with
  | none => none
  | some c =>
    if c.buf.length < c.cap then some { w with chans := w.chans.set ch { c with buf := c.buf ++ [v] } }
    else none

/-- A receive that does not wait (`select` with a `default` case): the
oldest value of the channel, if it holds one. -/
def World.tryRecv (w : World) (ch : Nat) : Option (Time × World) :=
  match w.chans.get? ch with
  | none => none
  | some c =>
    match c.buf with
    | [] => none
    | v :: rest => some (v, { w with chans := w.chans.set ch { c with buf := rest } })

/-- Modelled from the spec: `clock.AfterFunc(d, f)` for the callback `f` that
sends the clock's now to `ch`: one invocation of `f` is scheduled, due `d`
after the clock's now. -/
def Clock.AfterFunc (c : Clock) (d : Int) (ch : Nat) : Clock :=
  { c with timers := c.timers ++ [⟨c.now.ns + d, ch⟩] }

/-- Running a scheduled callback: `waiter <- clock.Now()`. -/
def World.fire (w : World) (tm : Timer) : World :=
  (w.send tm.ch w.clock.now).getD w

/-- Modelled from the spec: the test clock's `SetNow`: the clock's now becomes
`t` and every callback due at or before `t` runs, once. -/
def World.SetNow (w : World) (t : Time) : World :=
  let due := w.clock.timers.filter (fun tm => tm.due ≤ t.ns)
  let later := w.clock.timers.filter (fun tm => ¬ tm.due ≤ t.ns)
  due.foldl World.fire { w with clock := { w.clock with now := t, timers := later } }

/-! ## `event.go` -/

/-- The errors of `newEvent`. -/
inductive Error where
  /-- The error `illegal argument: model == nil`. -/
  | illegalArgument
  /-- The error `bad time specification`, with the specification. -/
  | badTimeSpecification (m : model.Event)
  /-- The error of `time.Parse` or `time.ParseInLocation`. -/
  | parse (msg : String)
deriving DecidableEq, Repr

/-- The struct `timeEvent`: the parsed timestamp, a pointer, and the
function field `asTimestamp`, nil until bound. The function reads the
process-wide clock, which it gets as an argument here. -/
structure timeEvent where
  parsed : Option Time
  asTimestamp : Option (Clock → Time → Option Time)

/-- An event that occurs at a specified timestamp. -/
structure timestamp where
  timeEvent : timeEvent

/-- An event that occurs after a delay from the reference timestamp. -/
structure delay where
  timeEvent : timeEvent

/-- An event that occurs, every day, at a specified time of day. -/
structure timeOfDay where
  timeEvent : timeEvent
  closeEvent : Bool

/-- Sunset each day. -/
structure sunset where
  timeOfDay : timeOfDay

/-- Sunrise each day. -/
structure sunrise where
  timeOfDay : timeOfDay

/-- The interface `Event`, as the pointer types of `event.go` that
implement it. -/
inductive Event where
  | timestamp (t : timestamp)
  | timeOfDay (t : timeOfDay)
  | delay (t : delay)
  | sunset (t : sunset)
  | sunrise (t : sunrise)

/-- The method `(*timeEvent).hasTimestamp`. -/
def timeEvent.hasTimestamp (_t : timeEvent) : Bool := true

/-- The method `(*timeEvent).isRecurring`. -/
def timeEvent.isRecurring (_t : timeEvent) : Bool := true

/-- The method `(*timeEvent).hasFinalEventOccurred`. -/
def timeEvent.hasFinalEventOccurred (_t : timeEvent) (_ref : Time) : Bool := false

/-- The method `(*timestamp).isRecurring`. -/
def timestamp.isRecurring (_t : timestamp) : Bool := false

/-- The method `(*timestamp).asTimestamp`: the parsed timestamp. -/
def timestamp.asTimestamp (t : timestamp) (_ref : Time) : Option Time :=
  t.timeEvent.parsed

/-- The method `(*timestamp).hasFinalEventOccurred`. -/
def timestamp.hasFinalEventOccurred (t : timestamp) (ref : Time) : Option Bool :=
  match timestamp.asTimestamp t ref with
  | none => none
  | some ts => some (decide (ts.Sub ref ≤ 0))

/-- The method `(*timeOfDay).asTimestamp`: the specified time of day,
relative to the reference timestamp. -/
def timeOfDay.asTimestamp (clock : Clock) (t : timeOfDay) (ref : Time) : Option Time :=
  match t.timeEvent.parsed with
  | none => none
  | some parsed =>
    let tmp := Date ref.Year ref.Month ref.Day parsed.Hour parsed.Minute parsed.Second 0
      clock.location
    if tmp.Sub ref < 0 && t.closeEvent then some (tmp.AddDate 0 0 1)
    else some tmp

/-- The method `(*delay).asTimestamp`: the timestamp after the delay
specified. -/
def delay.asTimestamp (t : delay) (ref : Time) : Option Time :=
  match t.timeEvent.parsed with
  | none => none
  | some parsed =>
    let delay := parsed.Hour * Hour + parsed.Minute * Minute + parsed.Second * Second
    some (ref.Add delay)

/-- The method `(*sunset).asTimestamp`. -/
def sunset.asTimestamp (clock : Clock) (t : sunset) (ref : Time) : Option Time :=
  timeOfDay.asTimestamp clock t.timeOfDay ref

/-- The method `(*sunrise).asTimestamp`. -/
def sunrise.asTimestamp (clock : Clock) (t : sunrise) (ref : Time) : Option Time :=
  timeOfDay.asTimestamp clock t.timeOfDay ref

/-- The method `(*timeEvent).waiter`: a channel for the event which
receives a timestamp when the event occurs. -/
def timeEvent.waiter (w : World) (t : timeEvent) (ref : Time) : Option (Nat × World) :=
  let now := w.clock.now
  match t.asTimestamp with
  | none => none
  | some asTimestamp =>
    match asTimestamp w.clock ref with
    | none => none
    | some ts =>
      let delay := ts.Sub now
      let (waiter, w) := w.makeChan 1
      if delay > 0 then
        some (waiter, { w with clock := w.clock.AfterFunc delay waiter })
      else
        match w.send waiter now with
        | none => none
        | some w => some (waiter, w)

/-- The function `newEvent`: initialize the event from the specification.
The result is Go's pair of an event and an error, either of which may be
nil. The method value stored in the function field is bound to the
receiver; the methods bound read `parsed` and `closeEvent` only. -/
def newEvent (clock : Clock) (m : Option model.Event) (closeEvent : Bool) :
    Option Event × Option Error :=
  match m with
  | none => (none, some .illegalArgument)
  | some m =>
    if m.Rule = "timestamp" then
      match ParseInLocation "2006-01-02 15:04:05" m.Param clock.location with
      | .ok parsed =>
        let result : timestamp := { timeEvent := { parsed := some parsed, asTimestamp := none } }
        let result : timestamp := { result with
          timeEvent := { result.timeEvent with
            asTimestamp := some (fun _ ref => timestamp.asTimestamp result ref) } }
        (some (.timestamp result), none)
      | .error err => (none, some (.parse err))
    else if m.Rule = "time-of-day" then
      match Parse "15:04:05" m.Param with
      | .ok parsed =>
        let result : timeOfDay :=
          { timeEvent := { parsed := some parsed, asTimestamp := none }, closeEvent := closeEvent }
        let result : timeOfDay := { result with
          timeEvent := { result.timeEvent with
            asTimestamp := some (fun clock ref => timeOfDay.asTimestamp clock result ref) } }
        (some (.timeOfDay result), none)
      | .error err => (none, some (.parse err))
    else if m.Rule = "delay" then
      match Parse "15:04:05" m.Param with
      | .ok parsed =>
        let result : delay := { timeEvent := { parsed := some parsed, asTimestamp := none } }
        let result : delay := { result with
          timeEvent := { result.timeEvent with
            asTimestamp := some (fun _ ref => delay.asTimestamp result ref) } }
        (some (.delay result), none)
      | .error err => (none, some (.parse err))
    else if m.Rule = "sunset" then
      match Parse "15:04:05" "18:00:00" with
      | .ok parsed =>
        let result : sunset :=
          { timeOfDay :=
              { timeEvent := { parsed := some parsed, asTimestamp := none },
                closeEvent := closeEvent } }
        let result : sunset := { result with
          timeOfDay := { result.timeOfDay with
            timeEvent := { result.timeOfDay.timeEvent with
              asTimestamp := some (fun clock ref => sunset.asTimestamp clock result ref) } } }
        (some (.sunset result), none)
      | .error err => (none, some (.parse err))
    else if m.Rule = "sunrise" then
      match Parse "15:04:05" "06:00:00" with
      | .ok parsed =>
        let result : sunrise :=
          { timeOfDay :=
              { timeEvent := { parsed := some parsed, asTimestamp := none },
                closeEvent := closeEvent } }
        let result : sunrise := { result with
          timeOfDay := { result.timeOfDay with
            timeEvent := { result.timeOfDay.timeEvent with
              asTimestamp := some (fun clock ref => sunrise.asTimestamp clock result ref) } } }
        (some (.sunrise result), none)
      | .error err => (none, some (.parse err))
    else (none, some (.badTimeSpecification m))

/-- The method `hasTimestamp` of the interface. -/
def Event.hasTimestamp : Event → Bool
  | .timestamp t => t.timeEvent.hasTimestamp
  | .timeOfDay t => t.timeEvent.hasTimestamp
  | .delay t => t.timeEvent.hasTimestamp
  | .sunset t => t.timeOfDay.timeEvent.hasTimestamp
  | .sunrise t => t.timeOfDay.timeEvent.hasTimestamp

/-- The method `asTimestamp` of the interface. -/
def Event.asTimestamp (clock : Clock) (e : Event) (ref : Time) : Option Time :=
  match e with
  | .timestamp t => timestamp.asTimestamp t ref
  | .timeOfDay t => timeOfDay.asTimestamp clock t ref
  | .delay t => delay.asTimestamp t ref
  | .sunset t => sunset.asTimestamp clock t ref
  | .sunrise t => sunrise.asTimestamp clock t ref

/-- The method `isRecurring` of the interface. -/
def Event.isRecurring : Event → Bool
  | .timestamp t => timestamp.isRecurring t
  | .timeOfDay t => t.timeEvent.isRecurring
  | .delay t => t.timeEvent.isRecurring
  | .sunset t => t.timeOfDay.timeEvent.isRecurring
  | .sunrise t => t.timeOfDay.timeEvent.isRecurring

/-- The method `hasFinalEventOccurred` of the interface. -/
def Event.hasFinalEventOccurred (e : Event) (ref : Time) : Option Bool :=
  match e with
  | .timestamp t => timestamp.hasFinalEventOccurred t ref
  | .timeOfDay t => some (t.timeEvent.hasFinalEventOccurred ref)
  | .delay t => some (t.timeEvent.hasFinalEventOccurred ref)
  | .sunset t => some (t.timeOfDay.timeEvent.hasFinalEventOccurred ref)
  | .sunrise t => some (t.timeOfDay.timeEvent.hasFinalEventOccurred ref)

/-- The method `waiter` of the interface. -/
def Event.waiter (w : World) (e : Event) (ref : Time) : Option (Nat × World) :=
  match e with
  | .timestamp t => t.timeEvent.waiter w ref
  | .timeOfDay t => t.timeEvent.waiter w ref
  | .delay t => t.timeEvent.waiter w ref
  | .sunset t => t.timeOfDay.timeEvent.waiter w ref
  | .sunrise t => t.timeOfDay.timeEvent.waiter w ref

/-- The `timeEvent` embedded in an event, whose methods the event
promotes. -/
def Event.timeEvent : Event → timeEvent
  | .timestamp t => t.timeEvent
  | .timeOfDay t => t.timeEvent
  | .delay t => t.timeEvent
  | .sunset t => t.timeOfDay.timeEvent
  | .sunrise t => t.timeOfDay.timeEvent

/-- The instant `p` is, in location `loc`, on the calendar date that `day`
has in its own location, at `hour:min:sec` and zero nanoseconds. -/
def Time.isAt (p : Time) (loc : Location) (day : Time) (hour min sec : Int) : Prop :=
  p.loc = loc ∧ p.Year = day.Year ∧ p.Month = day.Month ∧ p.Day = day.Day ∧
    p.Hour = hour ∧ p.Minute = min ∧ p.Second = sec ∧ p.Nanosecond = 0

instance (p : Time) (loc : Location) (day : Time) (hour min sec : Int) :
    Decidable (p.isAt loc day hour min sec) := by
  unfold Time.isAt
  infer_instance

/-- A clock for examples: 07:00:00 on January 1, 2015, ten hours east of
UTC, nothing scheduled. -/
def sampleClock : Clock := ⟨Date 2015 1 1 7 0 0 0 (FixedZone 36000), FixedZone 36000, []⟩

/-- The specifications that `newEvent` is to refuse: none at all, a rule
that is not one of the five, or a parameter that does not parse under the
layout of rule timestamp, time-of-day or delay. -/
def refused (clock : Clock) (m : Option model.Event) : Prop :=
  match m with
  | none => True
  | some x =>
    (x.Rule ≠ "timestamp" ∧ x.Rule ≠ "time-of-day" ∧ x.Rule ≠ "delay" ∧ x.Rule ≠ "sunset"
        ∧ x.Rule ≠ "sunrise") ∨
      (x.Rule = "timestamp" ∧
        (ParseInLocation "2006-01-02 15:04:05" x.Param clock.location).isOk = false) ∨
      ((x.Rule = "time-of-day" ∨ x.Rule = "delay") ∧ (Parse "15:04:05" x.Param).isOk = false)

/-- The clock steps to each instant of `steps` in turn. -/
def World.run (w : World) (steps : List Time) : World := steps.foldl World.SetNow w

/-- Every scheduled callback sends to a channel that has been made. -/
def World.wf (w : World) : Prop := ∀ tm ∈ w.clock.timers, tm.ch < w.chans.length

/-- Modelled from the spec: an event with the last-fired instant that the
caller records through `setLastFired`, unset at first. The file `event.go`
declares neither the field nor the method, so the instant is kept beside
the event. -/
structure Armed where
  event : Event
  lastFired : Option Time

/-- Modelled from the spec: the method `setLastFired`, which `event.go` lacks:
it records the instant the event last fired at. -/
def Armed.setLastFired (a : Armed) (t : Time) : Armed := { a with lastFired := some t }

/-- The method `waiter` on an event with a last-fired instant: the `waiter`
of `event.go`, which reads no last-fired instant. -/
def Armed.waiter (w : World) (a : Armed) (ref : Time) : Option (Nat × World) :=
  a.event.waiter w ref

/-- The world at the start of the examples: the sample clock, no channel. -/
def sampleWorld : World := ⟨sampleClock, []⟩

/-- An instant for examples: 08:00:00 on January 1, 2015, ten hours east of
UTC, an hour after the now of the sample clock. -/
def sampleLater : Time := Date 2015 1 1 8 0 0 0 (FixedZone 36000)

/-- The instant on the calendar date of `ref` at the hour, minute and
second of `parsed`, in `loc`: the `tmp` of `(*timeOfDay).asTimestamp`. -/
def projected (loc : Location) (parsed ref : Time) : Time :=
  Date ref.Year ref.Month ref.Day parsed.Hour parsed.Minute parsed.Second 0 loc

/-- A location for examples: New York in 2015. Eastern Standard Time, five
hours west of UTC; daylight saving time, four hours west, from 07:00:00 UTC
on March 8 to 06:00:00 UTC on November 1. -/
def sampleNewYork : Location :=
  ⟨-18000, [((Date 2015 3 8 7 0 0 0 UTC).ns / 1000000000, -14400),
    ((Date 2015 11 1 6 0 0 0 UTC).ns / 1000000000, -18000)]⟩

/-- A location for examples: Berlin in 2015. Central European Time, one
hour east of UTC; summer time, two hours east, from 01:00:00 UTC on March 29
to 01:00:00 UTC on October 25. -/
def sampleBerlin : Location :=
  ⟨3600, [((Date 2015 3 29 1 0 0 0 UTC).ns / 1000000000, 7200),
    ((Date 2015 10 25 1 0 0 0 UTC).ns / 1000000000, 3600)]⟩

/-- The wall-clock seconds since the epoch at 00:00:00 of the calendar date
of `t` in its location. -/
def Time.dayStart (t : Time) : Int := t.abs / secondsPerDay * secondsPerDay

/-- The location `l` keeps one offset `c`, of a day at most, at every
instant from a day before the start of the calendar date that `day` has in
its own location to three days after it, the start taken as an instant of
UTC. Every fixed zone with such an offset does, at every date; a location
with daylight saving time does at the dates away from its transitions. -/
def Location.steadyAround (l : Location) (day : Time) (c : Int) : Prop :=
  -86400 ≤ c ∧ c ≤ 86400 ∧
    ∀ x : Int, day.dayStart - 86400 ≤ x → x ≤ day.dayStart + 3 * 86400 → (l.lookup x).1 = c

/-- The offset east of UTC in force at `t` in the location of `t`: the
second value of the method `Time.Zone`. -/
def Time.zoneOffset (t : Time) : Int := (t.loc.lookup (t.ns / 1000000000)).1

/-- The method `Time.In`: the same instant, in location `loc`. -/
def Time.In (t : Time) (loc : Location) : Time := ⟨t.ns, loc⟩

/-- A clock for examples in New York, nothing scheduled. -/
def sampleNewYorkClock (now : Time) : Clock := ⟨now, sampleNewYork, []⟩

/-- A clock for examples in Berlin, nothing scheduled. -/
def sampleBerlinClock (now : Time) : Clock := ⟨now, sampleBerlin, []⟩

/-! ## The calendar: `absDate` inverts the day count of `Date` -/

/-- The cycle counts of a year determine its day count. -/
theorem daysSinceEpoch_cycles (q a b c : Int) (ha : 0 ≤ a ∧ a ≤ 3) (hb : 0 ≤ b ∧ b ≤ 24)
    (hc : 0 ≤ c ∧ c ≤ 3) :
    daysSinceEpoch (400 * q + 100 * a + 4 * b + c + 1)
      = 146097 * q + 36524 * a + 1461 * b + 365 * c := by
  have h1 : (400 * q + 100 * a + 4 * b + c + 1 - 1) / 400 = q := by omega
  have h2 : (400 * q + 100 * a + 4 * b + c + 1 - 1 - 400 * q) / 100 = a := by omega
  have h3 : (400 * q + 100 * a + 4 * b + c + 1 - 1 - 400 * q - 100 * a) / 4 = b := by omega
  simp only [daysSinceEpoch, h1, h2, h3]
  omega

/-- A year is a leap year when it ends a four-year cycle, other than the
century years that do not end a 400-year cycle. -/
theorem isLeap_cycles (q a b c : Int) (ha : 0 ≤ a ∧ a ≤ 3) (hb : 0 ≤ b ∧ b ≤ 24)
    (hc : 0 ≤ c ∧ c ≤ 3) :
    isLeap (400 * q + 100 * a + 4 * b + c + 1) = true ↔ (c = 3 ∧ (b ≠ 24 ∨ a = 3)) := by
  simp only [isLeap, Bool.and_eq_true, Bool.or_eq_true, beq_iff_eq, bne_iff_ne, ne_eq]
  omega

/-- The year that `absYear` finds, by its cycle counts, and the bound on
the day of the year left. -/
theorem absYear_cycles (n : Int) :
    ∃ q a b c yd : Int, (0 ≤ a ∧ a ≤ 3) ∧ (0 ≤ b ∧ b ≤ 24) ∧ (0 ≤ c ∧ c ≤ 3) ∧
      absYear n = (400 * q + 100 * a + 4 * b + c + 1, yd) ∧
      n = 146097 * q + 36524 * a + 1461 * b + 365 * c + yd ∧ 0 ≤ yd ∧
      (yd < 365 ∨ (yd = 365 ∧ c = 3 ∧ (b ≠ 24 ∨ a = 3))) := by
  obtain ⟨q, hq⟩ : ∃ q, q = n / 146097 := ⟨_, rfl⟩
  obtain ⟨r, hr⟩ : ∃ r, r = n - 146097 * q := ⟨_, rfl⟩
  obtain ⟨a0, ha0⟩ : ∃ a0, a0 = r / 36524 := ⟨_, rfl⟩
  obtain ⟨a, ha⟩ : ∃ a, a = a0 - a0 / 4 := ⟨_, rfl⟩
  obtain ⟨r2, hr2⟩ : ∃ r2, r2 = r - 36524 * a := ⟨_, rfl⟩
  obtain ⟨b, hb⟩ : ∃ b, b = r2 / 1461 := ⟨_, rfl⟩
  obtain ⟨r3, hr3⟩ : ∃ r3, r3 = r2 - 1461 * b := ⟨_, rfl⟩
  obtain ⟨c0, hc0⟩ : ∃ c0, c0 = r3 / 365 := ⟨_, rfl⟩
  obtain ⟨c, hc⟩ : ∃ c, c = c0 - c0 / 4 := ⟨_, rfl⟩
  have e : absYear n = (400 * q + 100 * a + 4 * b + c + 1, r3 - 365 * c) := by
    simp only [absYear]
    subst hq hr ha0 ha hr2 hb hr3 hc0 hc
    rfl
  have rb : 0 ≤ r ∧ r < 146097 := by omega
  have a0b : 0 ≤ a0 ∧ a0 ≤ 3 ∨ a0 = 4 := by omega
  have ab : 0 ≤ a ∧ a ≤ 3 := by omega
  have r2b : 0 ≤ r2 ∧ r2 < 36525 ∧ (r2 ≥ 36524 → a = 3) := by omega
  have bb : 0 ≤ b ∧ b ≤ 24 := by omega
  have r3b : 0 ≤ r3 ∧ r3 < 1461 ∧ (b = 24 ∧ a ≠ 3 → r3 < 1460) := by omega
  have c0b : 0 ≤ c0 ∧ c0 ≤ 3 ∨ c0 = 4 := by omega
  have cb : 0 ≤ c ∧ c ≤ 3 := by omega
  refine ⟨q, a, b, c, r3 - 365 * c, ab, bb, cb, e, by omega, by omega, ?_⟩
  omega

/-- The entries of the table `daysBefore`. -/
theorem daysBefore_vals :
    daysBefore 0 = 0 ∧ daysBefore 1 = 31 ∧ daysBefore 2 = 59 ∧ daysBefore 3 = 90 ∧
    daysBefore 4 = 120 ∧ daysBefore 5 = 151 ∧ daysBefore 6 = 181 ∧ daysBefore 7 = 212 ∧
    daysBefore 8 = 243 ∧ daysBefore 9 = 273 ∧ daysBefore 10 = 304 ∧ daysBefore 11 = 334 ∧
    daysBefore 12 = 365 := by
  decide

/-- Month and day found for a day of the year, the leap day left out. -/
theorem monthDay_plain (day : Int) (h0 : 0 ≤ day) (h1 : day < 365) :
    ∃ m d : Int,
      (if day ≥ daysBefore (day / 31 + 1) then
          (day / 31 + 1 + 1, day - daysBefore (day / 31 + 1) + 1)
        else (day / 31 + 1, day - daysBefore (day / 31) + 1)) = (m, d) ∧
      1 ≤ m ∧ m ≤ 12 ∧ 1 ≤ d ∧ d ≤ 31 ∧ daysBefore (m - 1) + (d - 1) = day ∧
      (m ≥ 3 ↔ day ≥ 59) := by
  obtain ⟨k, hk⟩ : ∃ k, k = day / 31 := ⟨_, rfl⟩
  rw [← hk]
  have hkb : 0 ≤ k ∧ k ≤ 11 := by omega
  obtain ⟨v0, v1, v2, v3, v4, v5, v6, v7, v8, v9, v10, v11, v12⟩ := daysBefore_vals
  obtain ⟨hk0, hk1⟩ := hkb
  interval_cases k <;>
    simp only [v0, v1, v2, v3, v4, v5, v6, v7, v8, v9, v10, v11, v12, Int.reduceAdd] <;>
    split <;> refine ⟨_, _, rfl, ?_⟩ <;>
    simp only [v0, v1, v2, v3, v4, v5, v6, v7, v8, v9, v10, v11, v12, Int.reduceAdd,
      Int.reduceSub] <;> omega

/-- Month and day found by `monthDay` are in range and count back to the
day of the year. -/
theorem monthDay_spec (leap : Bool) (yd : Int) (h0 : 0 ≤ yd)
    (h1 : yd < (if leap then 366 else 365)) :
    1 ≤ (monthDay leap yd).1 ∧ (monthDay leap yd).1 ≤ 12 ∧
    1 ≤ (monthDay leap yd).2 ∧ (monthDay leap yd).2 ≤ 31 ∧
    daysBefore ((monthDay leap yd).1 - 1) + (if leap && (monthDay leap yd).1 ≥ 3 then 1 else 0)
      + ((monthDay leap yd).2 - 1) = yd := by
  cases leap
  · simp only [Bool.false_eq_true, if_false] at h1
    obtain ⟨m, d, e, hm1, hm2, hd1, hd2, hs, -⟩ := monthDay_plain yd h0 h1
    simp only [monthDay, Bool.false_and, Bool.false_eq_true, if_false, e]
    omega
  · simp only [if_true] at h1
    by_cases h59 : yd = 59
    · subst h59
      simp only [monthDay]
      decide
    · by_cases hgt : yd > 59
      · obtain ⟨m, d, e, hm1, hm2, hd1, hd2, hs, h3⟩ :=
          monthDay_plain (yd - 1) (by omega) (by omega)
        have hne : (yd == 31 + 29 - 1) = false := by simpa using h59
        have hg : decide (yd > 31 + 29 - 1) = true := by simpa using hgt
        simp only [monthDay, Bool.true_and, hne, Bool.false_eq_true, if_false, hg, if_true, e]
        have : m ≥ 3 := by omega
        simp only [this, decide_True, if_true]
        omega
      · obtain ⟨m, d, e, hm1, hm2, hd1, hd2, hs, h3⟩ := monthDay_plain yd h0 (by omega)
        have hne : (yd == 31 + 29 - 1) = false := by simpa using h59
        have hg : decide (yd > 31 + 29 - 1) = false := by simpa using hgt
        simp only [monthDay, Bool.true_and, hne, Bool.false_eq_true, if_false, hg, e]
        have : ¬ m ≥ 3 := by omega
        simp only [this, decide_False, Bool.false_eq_true, if_false]
        omega

/-- The date that `absDate` gives for a day count has a month from 1 to 12
and a day from 1 to 31, and `Date` counts that day count for it. -/
theorem absDate_spec (n : Int) :
    1 ≤ (absDate n).2.1 ∧ (absDate n).2.1 ≤ 12 ∧ 1 ≤ (absDate n).2.2 ∧ (absDate n).2.2 ≤ 31 ∧
    dayCount (absDate n).1 (absDate n).2.1 (absDate n).2.2 = n := by
  obtain ⟨q, a, b, c, yd, ha, hb, hc, e, hn, hy0, hy⟩ := absYear_cycles n
  have hl := isLeap_cycles q a b c ha hb hc
  have hds := daysSinceEpoch_cycles q a b c ha hb hc
  have hyd : yd < (if isLeap (400 * q + 100 * a + 4 * b + c + 1) then 366 else 365) := by
    by_cases h : isLeap (400 * q + 100 * a + 4 * b + c + 1) = true
    · simp only [h, if_true]; omega
    · have h2 : ¬ (c = 3 ∧ (b ≠ 24 ∨ a = 3)) := fun hh => h (hl.2 hh)
      simp only [h, if_false]; omega
  have hm := monthDay_spec _ yd hy0 hyd
  simp only [absDate, e, dayCount, hds]
  omega

/-- The function `norm` leaves a low part in range as it is. -/
theorem norm_inRange (hi lo base : Int) (h0 : 0 ≤ lo) (h1 : lo < base) :
    norm hi lo base = (hi, lo) := by
  have h2 : ¬ lo < 0 := by omega
  have h3 : ¬ lo ≥ base := by omega
  simp only [norm, h2, h3, if_false]

/-- The instant of `Date` for fields in range, in a location that has
offset `c` at the wall-clock reading taken as an instant and at the instant
that `c` gives for the reading: the day count, the time of day, `c` taken
off. -/
theorem Date_inRange (y m d h mi s ns : Int) (loc : Location) (c : Int) (hm : 1 ≤ m ∧ m ≤ 12)
    (hh : 0 ≤ h ∧ h < 24) (hmi : 0 ≤ mi ∧ mi < 60) (hs : 0 ≤ s ∧ s < 60)
    (hns : 0 ≤ ns ∧ ns < 1000000000)
    (h1 : (loc.lookup (dayCount y m d * 86400 + (h * 3600 + mi * 60 + s))).1 = c)
    (h2 : (loc.lookup (dayCount y m d * 86400 + (h * 3600 + mi * 60 + s) - c)).1 = c) :
    Date y m d h mi s ns loc
      = ⟨(dayCount y m d * 86400 + (h * 3600 + mi * 60 + s) - c) * 1000000000 + ns, loc⟩ := by
  unfold Date
  simp only [norm_inRange y (m - 1) 12 (by omega) (by omega)]
  simp only [norm_inRange s ns 1000000000 hns.1 hns.2]
  simp only [norm_inRange mi s 60 hs.1 hs.2,
    norm_inRange h mi 60 hmi.1 hmi.2, norm_inRange d h 24 hh.1 hh.2]
  have e1 : m - 1 + 1 = m := by omega
  have e2 : (if (isLeap y && decide (m ≥ 3)) = true
      then daysSinceEpoch y + daysBefore (m - 1) + 1
      else daysSinceEpoch y + daysBefore (m - 1)) + (d - 1) = dayCount y m d := by
    simp only [dayCount]
    split <;> omega
  simp only [e1, secondsPerDay, e2]
  simp only [h1]
  congr 1
  by_cases h0 : c = 0
  · simp only [h0, ne_eq, not_true_eq_false, if_false, sub_zero]
  · simp only [ne_eq, h0, not_false_eq_true, if_true, h2, ite_self]

/-! ## Instants, dates and times of day -/

/-- A fixed zone has its offset at every instant. -/
theorem lookup_FixedZone (offset sec : Int) : ((FixedZone offset).lookup sec).1 = offset := rfl

/-- Hour, minute and second of any time are in range. -/
theorem Time.clock_range (t : Time) :
    (0 ≤ t.Hour ∧ t.Hour < 24) ∧ (0 ≤ t.Minute ∧ t.Minute < 60) ∧
      (0 ≤ t.Second ∧ t.Second < 60) ∧ (0 ≤ t.Nanosecond ∧ t.Nanosecond < 1000000000) := by
  simp only [Time.Hour, Time.Minute, Time.Second, Time.Nanosecond, secondsPerDay]
  omega

/-- The wall-clock seconds of an instant are its day count and its time of
day. -/
theorem Time.abs_eq (t : Time) :
    t.abs = t.abs / 86400 * 86400 + (t.Hour * 3600 + t.Minute * 60 + t.Second) := by
  simp only [Time.Hour, Time.Minute, Time.Second, secondsPerDay]
  omega

/-- Every instant is its day count, its time of day and its nanosecond, the
offset in force at the instant taken off. -/
theorem Time.ns_eq (t : Time) :
    t.ns = (t.abs / 86400 * 86400 + (t.Hour * 3600 + t.Minute * 60 + t.Second) - t.zoneOffset)
      * 1000000000 + t.Nanosecond := by
  simp only [Time.Hour, Time.Minute, Time.Second, Time.Nanosecond, Time.abs, Time.zoneOffset,
    secondsPerDay]
  omega

/-- The wall-clock seconds of an instant given by day count, time of day
and offset, when the location has that offset at the instant. -/
theorem abs_mk (n h mi s ns : Int) (loc : Location) (c : Int)
    (hns : 0 ≤ ns ∧ ns < 1000000000)
    (h2 : (loc.lookup (n * 86400 + (h * 3600 + mi * 60 + s) - c)).1 = c) :
    (Time.mk ((n * 86400 + (h * 3600 + mi * 60 + s) - c) * 1000000000 + ns) loc).abs
      = n * 86400 + (h * 3600 + mi * 60 + s) := by
  have e : ((n * 86400 + (h * 3600 + mi * 60 + s) - c) * 1000000000 + ns) / 1000000000
      = n * 86400 + (h * 3600 + mi * 60 + s) - c := by omega
  simp only [Time.abs, e, h2]
  omega

/-- The fields of an instant given by day count, time of day and offset,
when the location has that offset at the instant. -/
theorem fields_mk (n h mi s ns : Int) (loc : Location) (c : Int) (hh : 0 ≤ h ∧ h < 24)
    (hmi : 0 ≤ mi ∧ mi < 60) (hs : 0 ≤ s ∧ s < 60) (hns : 0 ≤ ns ∧ ns < 1000000000)
    (h2 : (loc.lookup (n * 86400 + (h * 3600 + mi * 60 + s) - c)).1 = c) :
    (Time.mk ((n * 86400 + (h * 3600 + mi * 60 + s) - c) * 1000000000 + ns) loc).abs / 86400
        = n ∧
    (Time.mk ((n * 86400 + (h * 3600 + mi * 60 + s) - c) * 1000000000 + ns) loc).Hour = h ∧
    (Time.mk ((n * 86400 + (h * 3600 + mi * 60 + s) - c) * 1000000000 + ns) loc).Minute = mi ∧
    (Time.mk ((n * 86400 + (h * 3600 + mi * 60 + s) - c) * 1000000000 + ns) loc).Second = s ∧
    (Time.mk ((n * 86400 + (h * 3600 + mi * 60 + s) - c) * 1000000000 + ns) loc).Nanosecond
        = ns := by
  simp only [Time.Hour, Time.Minute, Time.Second, abs_mk n h mi s ns loc c hns h2, secondsPerDay,
    Time.Nanosecond]
  omega

/-- The instant that `Date` builds on the calendar date of `ref`, in a
location that has offset `c` at the wall-clock reading taken as an instant
and at the instant that `c` gives for the reading. -/
theorem Date_onDateOf (ref : Time) (h mi s ns : Int) (loc : Location) (c : Int)
    (hh : 0 ≤ h ∧ h < 24) (hmi : 0 ≤ mi ∧ mi < 60) (hs : 0 ≤ s ∧ s < 60)
    (hns : 0 ≤ ns ∧ ns < 1000000000)
    (h1 : (loc.lookup (ref.abs / 86400 * 86400 + (h * 3600 + mi * 60 + s))).1 = c)
    (h2 : (loc.lookup (ref.abs / 86400 * 86400 + (h * 3600 + mi * 60 + s) - c)).1 = c) :
    Date ref.Year ref.Month ref.Day h mi s ns loc
      = ⟨(ref.abs / 86400 * 86400 + (h * 3600 + mi * 60 + s) - c) * 1000000000 + ns, loc⟩ := by
  obtain ⟨m1, m2, -, -, hc⟩ := absDate_spec (ref.abs / 86400)
  simp only [Time.Year, Time.Month, Time.Day, secondsPerDay]
  rw [Date_inRange _ _ _ h mi s ns loc c ⟨m1, m2⟩ hh hmi hs hns (by rw [hc]; exact h1)
    (by rw [hc]; exact h2), hc]

/-- The next calendar day at the same time of day is 24 hours later, when
the location has the offset in force at the instant also a day on. -/
theorem AddDate_day (t : Time) (c : Int) (h0 : t.zoneOffset = c)
    (h1 : (t.loc.lookup (t.abs + 86400)).1 = c)
    (h2 : (t.loc.lookup (t.abs + 86400 - c)).1 = c) :
    t.AddDate 0 0 1 = t.Add (24 * Hour) := by
  obtain ⟨hh, hmi, hs, hns⟩ := t.clock_range
  obtain ⟨m1, m2, -, -, hc⟩ := absDate_spec (t.abs / 86400)
  have hd : dayCount (absDate (t.abs / 86400)).1 (absDate (t.abs / 86400)).2.1
      ((absDate (t.abs / 86400)).2.2 + 1) = t.abs / 86400 + 1 := by
    simp only [dayCount] at hc ⊢
    omega
  have ea : (t.abs / 86400 + 1) * 86400 + (t.Hour * 3600 + t.Minute * 60 + t.Second)
      = t.abs + 86400 := by
    have e := t.abs_eq
    omega
  simp only [Time.AddDate, Time.Year, Time.Month, Time.Day, secondsPerDay, add_zero]
  rw [Date_inRange _ _ _ _ _ _ _ t.loc c ⟨m1, m2⟩ hh hmi hs hns (by rw [hd, ea]; exact h1)
    (by rw [hd, ea]; exact h2), hd]
  have e := t.ns_eq
  rw [h0] at e
  simp only [Time.Add, Hour, Minute, Second]
  congr 1
  omega

/-- Two instants of one location with the same offset in force, the same
date, time of day and nanosecond are the same instant. -/
theorem Time.ext_fields (p q : Time) (hl : p.loc = q.loc) (hz : p.zoneOffset = q.zoneOffset)
    (hy : p.Year = q.Year) (hm : p.Month = q.Month) (hd : p.Day = q.Day)
    (hh : p.Hour = q.Hour) (hmi : p.Minute = q.Minute) (hs : p.Second = q.Second)
    (hn : p.Nanosecond = q.Nanosecond) : p = q := by
  have cp := (absDate_spec (p.abs / 86400)).2.2.2.2
  have cq := (absDate_spec (q.abs / 86400)).2.2.2.2
  simp only [Time.Year, Time.Month, Time.Day, secondsPerDay] at hy hm hd
  rw [hy, hm, hd, cq] at cp
  have ep := p.ns_eq
  have eq := q.ns_eq
  rw [← cp, hz, hh, hmi, hs, hn, ← eq] at ep
  calc p = ⟨p.ns, p.loc⟩ := rfl
    _ = ⟨q.ns, q.loc⟩ := by rw [ep, hl]
    _ = q := rfl

/-! ## Parsing -/

/-- The value of a digit is from 0 to 9. -/
theorem digitVal_range (c : Char) (h : digit c = true) : 0 ≤ digitVal c ∧ digitVal c ≤ 9 := by
  simp only [digit, Bool.and_eq_true, decide_eq_true_eq] at h
  obtain ⟨h1, h2⟩ := h
  have h1n : (48 : Nat) ≤ c.toNat := h1
  have h2n : c.toNat ≤ 57 := h2
  simp only [digitVal]
  omega

/-- Reading digits after a value `x`: the result is below
`(x + 1) * 10 ^ k` for `k` digits read. -/
theorem atoi_foldl_range (ds : List Char) (hd : ∀ c ∈ ds, digit c = true) (x : Int)
    (hx : 0 ≤ x) :
    0 ≤ ds.foldl (fun x c => x * 10 + digitVal c) x ∧
      ds.foldl (fun x c => x * 10 + digitVal c) x < (x + 1) * 10 ^ ds.length := by
  induction ds generalizing x with
  | nil => simp only [List.foldl_nil, List.length_nil, pow_zero, mul_one]; omega
  | cons c rest ih =>
    have hc := digitVal_range c (hd c (List.mem_cons_self _ _))
    have hr := ih (fun d hd2 => hd d (List.mem_cons_of_mem _ hd2)) (x * 10 + digitVal c)
      (by omega)
    refine ⟨hr.1, lt_of_lt_of_le hr.2 ?_⟩
    simp only [List.length_cons, pow_succ]
    have hp : (0 : Int) ≤ 10 ^ rest.length := by positivity
    nlinarith

/-- The number read from a run of `k` digits is below `10 ^ k`. -/
theorem atoi_range (ds : List Char) (hd : ∀ c ∈ ds, digit c = true) :
    0 ≤ atoi ds ∧ atoi ds < 10 ^ ds.length := by
  have h := atoi_foldl_range ds hd 0 (le_refl 0)
  simpa [atoi] using h

/-- The fraction of a second read is a count of nanoseconds below one
second. -/
theorem getFraction_range (value : List Char) :
    0 ≤ (getFraction value).1 ∧ (getFraction value).1 < 1000000000 := by
  unfold getFraction
  split
  · rename_i c rest
    split
    · have hd : ∀ d ∈ (List.takeWhile digit rest).take 9, digit d = true := by
        intro d hd
        exact (List.mem_takeWhile_imp (List.mem_of_mem_take hd))
      have hr := atoi_range _ hd
      have hl : ((List.takeWhile digit rest).take 9).length ≤ 9 := by
        simp only [List.length_take]; omega
      dsimp only
      generalize ((List.takeWhile digit rest).take 9).length = k at hr hl ⊢
      generalize atoi ((List.takeWhile digit rest).take 9) = a at hr ⊢
      have hp : (0 : Int) < 10 ^ (9 - k) := by positivity
      have e : (10 : Int) ^ k * 10 ^ (9 - k) = 1000000000 := by
        rw [← pow_add]; have : k + (9 - k) = 9 := by omega
        rw [this]; norm_num
      constructor
      · exact mul_nonneg hr.1 hp.le
      · calc a * 10 ^ (9 - k) < 10 ^ k * 10 ^ (9 - k) := by
              exact mul_lt_mul_of_pos_right hr.2 hp
          _ = 1000000000 := e
    · simp
  · simp

/-- The clock fields that `getClock` returns are in range. -/
theorem getClock_range (value rest : List Char) (h mi s ns : Int)
    (e : getClock value = .ok (h, mi, s, ns, rest)) :
    (0 ≤ h ∧ h < 24) ∧ (0 ≤ mi ∧ mi < 60) ∧ (0 ≤ s ∧ s < 60) ∧
      (0 ≤ ns ∧ ns < 1000000000) := by
  unfold getClock at e
  split at e
  · exact absurd e (by simp)
  · split at e
    · exact absurd e (by simp)
    · split at e
      · exact absurd e (by simp)
      · split at e
        · exact absurd e (by simp)
        · split at e
          · exact absurd e (by simp)
          · split at e
            · exact absurd e (by simp)
            · split at e
              · exact absurd e (by simp)
              · split at e
                · exact absurd e (by simp)
                · simp only [Except.ok.injEq, Prod.mk.injEq] at e
                  obtain ⟨e1, e2, e3, e4, -⟩ := e
                  subst e1 e2 e3 e4
                  simp only [Bool.or_eq_true, decide_eq_true_eq, not_or, not_lt, not_le] at *
                  refine ⟨?_, ?_, ?_, getFraction_range _⟩ <;> assumption

/-- What `clockFields` returns: year 0, January 1, and clock fields in
range. -/
theorem clockFields_ok (value : List Char) (f : Fields) (e : clockFields value = .ok f) :
    f.year = 0 ∧ f.month = 1 ∧ f.day = 1 ∧ (0 ≤ f.hour ∧ f.hour < 24) ∧
      (0 ≤ f.min ∧ f.min < 60) ∧ (0 ≤ f.sec ∧ f.sec < 60) ∧
      (0 ≤ f.nsec ∧ f.nsec < 1000000000) := by
  unfold clockFields at e
  split at e
  · exact absurd e (by simp)
  · rename_i h mi s ns rest hc
    split at e
    · exact absurd e (by simp)
    · simp only [Except.ok.injEq] at e
      subst e
      exact ⟨rfl, rfl, rfl, getClock_range _ _ _ _ _ _ hc⟩

/-- Layout `15:04:05` is read by `clockFields`. -/
theorem parseFields_clock (value : String) :
    parseFields "15:04:05" value = clockFields value.toList := by
  simp [parseFields]

/-- Layout `2006-01-02 15:04:05` is read by `dateTimeFields`. -/
theorem parseFields_dateTime (value : String) :
    parseFields "2006-01-02 15:04:05" value = dateTimeFields value.toList := by
  simp [parseFields]

/-- What `Parse` makes of the fields read under layout `15:04:05`. -/
theorem Parse_clock (value : String) (f : Fields)
    (e : parseFields "15:04:05" value = .ok f) :
    Parse "15:04:05" value = .ok (Date 0 1 1 f.hour f.min f.sec f.nsec UTC) := by
  have hf := clockFields_ok value.toList f (by rw [← parseFields_clock]; exact e)
  obtain ⟨hy, hm, hd, -⟩ := hf
  simp only [Parse, ParseInLocation, e, hy, hm, hd]
  rfl

/-! ## The events that `newEvent` builds -/

/-- Hour, minute and second of the instant that `Parse` builds under layout
`15:04:05` are the fields read. -/
theorem parsed_clock (h mi s ns : Int) (hh : 0 ≤ h ∧ h < 24) (hmi : 0 ≤ mi ∧ mi < 60)
    (hs : 0 ≤ s ∧ s < 60) (hns : 0 ≤ ns ∧ ns < 1000000000) :
    (Date 0 1 1 h mi s ns UTC).Hour = h ∧ (Date 0 1 1 h mi s ns UTC).Minute = mi ∧
      (Date 0 1 1 h mi s ns UTC).Second = s := by
  rw [Date_inRange 0 1 1 h mi s ns UTC 0 (by omega) hh hmi hs hns rfl rfl]
  obtain ⟨-, e1, e2, e3, -⟩ := fields_mk (dayCount 0 1 1) h mi s ns UTC 0 hh hmi hs hns rfl
  exact ⟨e1, e2, e3⟩

/-- The sign of `Sub` is the sign of the difference of the instants. -/
theorem Sub_sign (t u : Time) :
    (t.Sub u < 0 ↔ t.ns < u.ns) ∧ (t.Sub u ≤ 0 ↔ t.ns ≤ u.ns) ∧ (0 < t.Sub u ↔ u.ns < t.ns) := by
  simp only [Time.Sub, minDuration, maxDuration]
  split
  · omega
  · split <;> omega

/-- The instant that `Sub` returns when the difference fits a `Duration`. -/
theorem Sub_exact (t u : Time) (h1 : minDuration ≤ t.ns - u.ns)
    (h2 : t.ns - u.ns ≤ maxDuration) : t.Sub u = t.ns - u.ns := by
  simp only [Time.Sub, minDuration, maxDuration] at *
  split
  · omega
  · split <;> omega

/-- The time-of-day event that `newEvent` builds from a parameter that
parses. -/
theorem newEvent_timeOfDay (clock0 : Clock) (param : String) (closeEvent : Bool) (f : Fields)
    (hp : parseFields "15:04:05" param = .ok f) :
    newEvent clock0 (some ⟨"time-of-day", param⟩) closeEvent
      = (some (.timeOfDay ⟨⟨some (Date 0 1 1 f.hour f.min f.sec f.nsec UTC),
            some (fun clock ref => timeOfDay.asTimestamp clock
              ⟨⟨some (Date 0 1 1 f.hour f.min f.sec f.nsec UTC), none⟩, closeEvent⟩ ref)⟩,
          closeEvent⟩), none) := by
  have e := Parse_clock param f hp
  simp only [newEvent, e]
  rfl

/-! ## The projection of a time of day on the date of the reference -/

/-- The method `(*timeOfDay).asTimestamp` when the parsed time is present:
the projected instant, and the instant one calendar day on from it when it
is before the reference and the event is a close event. -/
theorem timeOfDay_asTimestamp_projected (clock : Clock) (t : timeOfDay) (parsed ref : Time)
    (hp : t.timeEvent.parsed = some parsed) :
    timeOfDay.asTimestamp clock t ref
      = some (if (projected clock.location parsed ref).ns < ref.ns ∧ t.closeEvent = true then
          (projected clock.location parsed ref).AddDate 0 0 1
        else projected clock.location parsed ref) := by
  simp only [timeOfDay.asTimestamp, hp, Bool.and_eq_true, decide_eq_true_eq,
    (Sub_sign _ ref).1, projected]
  split <;> rfl

/-- A fixed zone with an offset of a day at most is steady around every
date. -/
theorem steadyAround_FixedZone (offset : Int) (day : Time) (h1 : -86400 ≤ offset)
    (h2 : offset ≤ 86400) : (FixedZone offset).steadyAround day offset :=
  ⟨h1, h2, fun _ _ _ => rfl⟩

/-- The seconds of a time of day are within a day. -/
theorem Time.tod_range (t : Time) :
    0 ≤ t.Hour * 3600 + t.Minute * 60 + t.Second ∧
      t.Hour * 3600 + t.Minute * 60 + t.Second < 86400 := by
  obtain ⟨hh, hmi, hs, -⟩ := t.clock_range
  omega

/-- The projected instant, by the day count of the reference and the time
of day of the parsed time, in a location that has offset `c` at the
wall-clock reading taken as an instant and at the instant that `c` gives
for the reading. -/
theorem projected_at (loc : Location) (parsed ref : Time) (c : Int)
    (h1 : (loc.lookup (ref.abs / 86400 * 86400
      + (parsed.Hour * 3600 + parsed.Minute * 60 + parsed.Second))).1 = c)
    (h2 : (loc.lookup (ref.abs / 86400 * 86400
      + (parsed.Hour * 3600 + parsed.Minute * 60 + parsed.Second) - c)).1 = c) :
    projected loc parsed ref
      = ⟨(ref.abs / 86400 * 86400
          + (parsed.Hour * 3600 + parsed.Minute * 60 + parsed.Second) - c)
          * 1000000000, loc⟩ := by
  obtain ⟨hh, hmi, hs, -⟩ := parsed.clock_range
  rw [projected, Date_onDateOf ref _ _ _ 0 loc c hh hmi hs (by omega) h1 h2]
  simp only [add_zero]

/-- The projected instant where the location is steady around the date of
the reference. -/
theorem projected_ns (loc : Location) (parsed ref : Time) (c : Int)
    (hS : loc.steadyAround ref c) :
    projected loc parsed ref
      = ⟨(ref.abs / 86400 * 86400
          + (parsed.Hour * 3600 + parsed.Minute * 60 + parsed.Second) - c)
          * 1000000000, loc⟩ := by
  obtain ⟨c1, c2, hl⟩ := hS
  simp only [Time.dayStart, secondsPerDay] at hl
  have ht := parsed.tod_range
  exact projected_at loc parsed ref c (hl _ (by omega) (by omega)) (hl _ (by omega) (by omega))

/-- Where the location is steady around the date of the reference, the
instant `k` days on from the projected instant, for `k` 0 or 1: its wall
clock seconds, its offset and its fields. -/
theorem projected_fields (loc : Location) (parsed ref : Time) (c k : Int)
    (hS : loc.steadyAround ref c) (hk : 0 ≤ k ∧ k ≤ 1) :
    (Time.mk (((ref.abs / 86400 + k) * 86400
        + (parsed.Hour * 3600 + parsed.Minute * 60 + parsed.Second) - c)
        * 1000000000 + 0) loc).abs
      = (ref.abs / 86400 + k) * 86400
        + (parsed.Hour * 3600 + parsed.Minute * 60 + parsed.Second) ∧
    (Time.mk (((ref.abs / 86400 + k) * 86400
        + (parsed.Hour * 3600 + parsed.Minute * 60 + parsed.Second) - c)
        * 1000000000 + 0) loc).abs / 86400 = ref.abs / 86400 + k ∧
    (Time.mk (((ref.abs / 86400 + k) * 86400
        + (parsed.Hour * 3600 + parsed.Minute * 60 + parsed.Second) - c)
        * 1000000000 + 0) loc).zoneOffset = c ∧
    (Time.mk (((ref.abs / 86400 + k) * 86400
        + (parsed.Hour * 3600 + parsed.Minute * 60 + parsed.Second) - c)
        * 1000000000 + 0) loc).Hour = parsed.Hour ∧
    (Time.mk (((ref.abs / 86400 + k) * 86400
        + (parsed.Hour * 3600 + parsed.Minute * 60 + parsed.Second) - c)
        * 1000000000 + 0) loc).Minute = parsed.Minute ∧
    (Time.mk (((ref.abs / 86400 + k) * 86400
        + (parsed.Hour * 3600 + parsed.Minute * 60 + parsed.Second) - c)
        * 1000000000 + 0) loc).Second = parsed.Second ∧
    (Time.mk (((ref.abs / 86400 + k) * 86400
        + (parsed.Hour * 3600 + parsed.Minute * 60 + parsed.Second) - c)
        * 1000000000 + 0) loc).Nanosecond = 0 := by
  obtain ⟨c1, c2, hl⟩ := hS
  simp only [Time.dayStart, secondsPerDay] at hl
  obtain ⟨hh, hmi, hs, -⟩ := parsed.clock_range
  have h2 : (loc.lookup ((ref.abs / 86400 + k) * 86400
      + (parsed.Hour * 3600 + parsed.Minute * 60 + parsed.Second) - c)).1 = c :=
    hl _ (by omega) (by omega)
  obtain ⟨e0, e1, e2, e3, e4⟩ :=
    fields_mk (ref.abs / 86400 + k) parsed.Hour parsed.Minute parsed.Second 0 loc c hh hmi hs
      (by omega) h2
  refine ⟨abs_mk _ _ _ _ 0 loc c (by omega) h2, e0, ?_, e1, e2, e3, e4⟩
  have e : (((ref.abs / 86400 + k) * 86400
      + (parsed.Hour * 3600 + parsed.Minute * 60 + parsed.Second) - c) * 1000000000 + 0)
      / 1000000000 = (ref.abs / 86400 + k) * 86400
      + (parsed.Hour * 3600 + parsed.Minute * 60 + parsed.Second) - c := by omega
  simp only [Time.zoneOffset, e, h2]

/-- Where the location is steady around the date of the reference, the
instant one calendar day on from the projected instant is 24 hours on from
it. -/
theorem projected_next (loc : Location) (parsed ref : Time) (c : Int)
    (hS : loc.steadyAround ref c) :
    (projected loc parsed ref).AddDate 0 0 1 = (projected loc parsed ref).Add (24 * Hour) ∧
    (projected loc parsed ref).Add (24 * Hour)
      = ⟨((ref.abs / 86400 + 1) * 86400
          + (parsed.Hour * 3600 + parsed.Minute * 60 + parsed.Second) - c)
          * 1000000000 + 0, loc⟩ := by
  obtain ⟨a0, -, a2, -⟩ := projected_fields loc parsed ref c 0 hS (by omega)
  have ht := parsed.tod_range
  obtain ⟨c1, c2, hl⟩ := hS
  simp only [Time.dayStart, secondsPerDay] at hl
  have hp : projected loc parsed ref = ⟨((ref.abs / 86400 + 0) * 86400
      + (parsed.Hour * 3600 + parsed.Minute * 60 + parsed.Second) - c) * 1000000000 + 0, loc⟩ := by
    rw [projected_ns loc parsed ref c ⟨c1, c2, by
      simp only [Time.dayStart, secondsPerDay]
      exact hl⟩]
    simp only [add_zero]
  rw [hp]
  constructor
  · refine AddDate_day _ c a2 ?_ ?_
    · rw [a0]
      exact hl _ (by omega) (by omega)
    · rw [a0]
      exact hl _ (by omega) (by omega)
  · simp only [Time.Add, Hour, Minute, Second, Time.mk.injEq, and_true]
    ring

/-- Where the location is steady around the date of the reference, the
projected instant is on the date of the reference at the time of day of
the parsed time, with the steady offset in force. -/
theorem projected_isAt (loc : Location) (parsed ref : Time) (c : Int)
    (hS : loc.steadyAround ref c) :
    (projected loc parsed ref).isAt loc ref parsed.Hour parsed.Minute parsed.Second ∧
      (projected loc parsed ref).zoneOffset = c := by
  obtain ⟨-, e0, ez, e1, e2, e3, e4⟩ := projected_fields loc parsed ref c 0 hS (by omega)
  rw [projected_ns loc parsed ref c hS]
  simp only [add_zero] at e0 ez e1 e2 e3 e4
  simp only [Time.isAt, Time.Year, Time.Month, Time.Day, secondsPerDay, e0, e1, e2, e3, e4, ez,
    and_self]

/-- One instant only is on a given date at a given time of day in a given
location with a given offset in force. -/
theorem isAt_unique (loc : Location) (ref p q : Time) (h mi s : Int)
    (hp : p.isAt loc ref h mi s) (hq : q.isAt loc ref h mi s)
    (hz : q.zoneOffset = p.zoneOffset) : q = p := by
  obtain ⟨p0, p1, p2, p3, p4, p5, p6, p7⟩ := hp
  obtain ⟨q0, q1, q2, q3, q4, q5, q6, q7⟩ := hq
  exact Time.ext_fields q p (by rw [q0, p0]) hz (by rw [q1, p1]) (by rw [q2, p2])
    (by rw [q3, p3]) (by rw [q4, p4]) (by rw [q5, p5]) (by rw [q6, p6]) (by rw [q7, p7])

/-- The offset of the sample location New York at every instant. -/
theorem lookup_sampleNewYork (x : Int) :
    (sampleNewYork.lookup x).1
      = if x < 63561394800 then -18000 else if x < 63581954400 then -14400 else -18000 := by
  have e1 : (Date 2015 3 8 7 0 0 0 UTC).ns / 1000000000 = 63561394800 := by decide
  have e2 : (Date 2015 11 1 6 0 0 0 UTC).ns / 1000000000 = 63581954400 := by decide
  simp only [Location.lookup, sampleNewYork, Location.lookupFrom, e1, e2]
  split
  · rfl
  · split <;> rfl

/-- The day count of an instant on a given date. -/
theorem dayCount_of_date (p : Time) (y m d : Int) (hy : p.Year = y) (hm : p.Month = m)
    (hd : p.Day = d) : p.abs / 86400 = dayCount y m d := by
  have cp := (absDate_spec (p.abs / 86400)).2.2.2.2
  simp only [Time.Year, Time.Month, Time.Day, secondsPerDay] at hy hm hd
  rw [hy, hm, hd] at cp
  exact cp.symm

/-! ## Time-of-day events -/

/-- C1 as stated fails where the clock's location has a zone transition.
In New York the clocks go from 02:00:00 to 03:00:00 on March 8, 2015: no
instant of that date is at 02:30:00 there. For a close event at 02:30:00
asked at 01:00:00 of that date `asTimestamp` returns 01:30:00 of that
date. And for a close event at 06:00:00 asked at 07:00:00 of March 7, the
instant `p` at 06:00:00 of March 7 is before the reference and
`asTimestamp` returns the instant one calendar day on from `p`, which is 23
hours on, not 24. -/
theorem timeOfDay_close_asTimestamp_counterexample :
    (∃ e t, newEvent sampleClock (some ⟨"time-of-day", "02:30:00"⟩) true = (some e, none) ∧
      e.asTimestamp (sampleNewYorkClock (Date 2015 3 8 1 0 0 0 sampleNewYork))
        (Date 2015 3 8 1 0 0 0 sampleNewYork) = some t ∧
      t.isAt sampleNewYork (Date 2015 3 8 1 0 0 0 sampleNewYork) 1 30 0 ∧
      ¬ ∃ p : Time, p.isAt sampleNewYork (Date 2015 3 8 1 0 0 0 sampleNewYork) 2 30 0) ∧
    ∃ e p t, newEvent sampleClock (some ⟨"time-of-day", "06:00:00"⟩) true = (some e, none) ∧
      p = Date 2015 3 7 6 0 0 0 sampleNewYork ∧
      p.isAt sampleNewYork (Date 2015 3 7 7 0 0 0 sampleNewYork) 6 0 0 ∧
      p.ns < (Date 2015 3 7 7 0 0 0 sampleNewYork).ns ∧
      e.asTimestamp (sampleNewYorkClock (Date 2015 3 7 7 0 0 0 sampleNewYork))
        (Date 2015 3 7 7 0 0 0 sampleNewYork) = some t ∧
      t = p.AddDate 0 0 1 ∧ t = p.Add (23 * Hour) ∧ t ≠ p.Add (24 * Hour) := by
  refine ⟨⟨_, _, rfl, rfl, by decide, ?_⟩, _, _, _, rfl, rfl, by decide, by decide, rfl,
    by decide, by decide, by decide⟩
  rintro ⟨p, hl, hy, hm, hd, hh, -⟩
  have e1 : (Date 2015 3 8 1 0 0 0 sampleNewYork).Year = 2015 := by decide
  have e2 : (Date 2015 3 8 1 0 0 0 sampleNewYork).Month = 3 := by decide
  have e3 : (Date 2015 3 8 1 0 0 0 sampleNewYork).Day = 8 := by decide
  have hn := dayCount_of_date p 2015 3 8 (by rw [hy, e1]) (by rw [hm, e2]) (by rw [hd, e3])
  have e4 : dayCount 2015 3 8 = 735664 := by decide
  rw [e4] at hn
  have ha : p.abs = p.ns / 1000000000 + (sampleNewYork.lookup (p.ns / 1000000000)).1 := by
    simp only [Time.abs, hl]
  rw [lookup_sampleNewYork] at ha
  simp only [Time.Hour, secondsPerDay] at hh
  split at ha
  · omega
  · split at ha <;> omega

/-- C1, amended: a time-of-day event built with closeEvent=true from a
parameter that parses under `15:04:05`, a clock and a reference instant
such that the clock's location keeps one offset `c` from a day before the
start of the calendar date of the reference to three days after it. The
instant `p` that `time.Date` gives for the calendar date of the reference
and the parsed hour, minute and second is on that date, in the clock's
location, at the parsed hour, minute and second and zero nanoseconds, and
is the only such instant with offset `c` in force; one calendar day on
from `p` (`AddDate(0, 0, 1)`) is 24 hours on; `asTimestamp` returns `p`
plus one day when `p` is strictly before the reference, and `p` itself
otherwise. -/
theorem timeOfDay_close_asTimestamp (clock0 clock : Clock) (param : String) (f : Fields)
    (ref : Time) (c : Int) (hp : parseFields "15:04:05" param = .ok f)
    (hS : clock.location.steadyAround ref c) :
    ∃ e p, newEvent clock0 (some ⟨"time-of-day", param⟩) true = (some e, none) ∧
      p = Date ref.Year ref.Month ref.Day f.hour f.min f.sec 0 clock.location ∧
      p.isAt clock.location ref f.hour f.min f.sec ∧
      (∀ q : Time, q.isAt clock.location ref f.hour f.min f.sec → q.zoneOffset = c → q = p) ∧
      p.AddDate 0 0 1 = p.Add (24 * Hour) ∧
      e.asTimestamp clock ref = some (if p.ns < ref.ns then p.AddDate 0 0 1 else p) := by
  obtain ⟨-, -, -, hh, hmi, hs, hns⟩ :=
    clockFields_ok param.toList f (by rw [← parseFields_clock]; exact hp)
  obtain ⟨e1, e2, e3⟩ := parsed_clock f.hour f.min f.sec f.nsec hh hmi hs hns
  obtain ⟨hat, hz⟩ :=
    projected_isAt clock.location (Date 0 1 1 f.hour f.min f.sec f.nsec UTC) ref c hS
  rw [e1, e2, e3] at hat
  refine ⟨_, projected clock.location (Date 0 1 1 f.hour f.min f.sec f.nsec UTC) ref,
    newEvent_timeOfDay clock0 param true f hp, ?_, hat,
    fun q hq hqz => isAt_unique _ _ _ _ _ _ _ hat hq (by rw [hqz, hz]),
    (projected_next clock.location _ ref c hS).1, ?_⟩
  · rw [projected, e1, e2, e3]
  · simp only [Event.asTimestamp]
    rw [timeOfDay_asTimestamp_projected clock _ _ ref rfl]
    simp only [and_true]

/-- C1, at 06:00:00 asked at 07:00:00, ten hours east of UTC. -/
theorem timeOfDay_close_asTimestamp_witness :
    parseFields "15:04:05" "06:00:00" = .ok ⟨0, 1, 1, 6, 0, 0, 0⟩ ∧
    sampleClock.location.steadyAround sampleClock.now 36000 ∧
    ∃ e p, newEvent sampleClock (some ⟨"time-of-day", "06:00:00"⟩) true = (some e, none) ∧
      p = Date sampleClock.now.Year sampleClock.now.Month sampleClock.now.Day 6 0 0 0
        sampleClock.location ∧
      p.isAt sampleClock.location sampleClock.now 6 0 0 ∧
      (∀ q : Time, q.isAt sampleClock.location sampleClock.now 6 0 0 →
        q.zoneOffset = 36000 → q = p) ∧
      p.AddDate 0 0 1 = p.Add (24 * Hour) ∧
      e.asTimestamp sampleClock sampleClock.now
        = some (if p.ns < sampleClock.now.ns then p.AddDate 0 0 1 else p) :=
  ⟨rfl, steadyAround_FixedZone 36000 _ (by decide) (by decide),
    timeOfDay_close_asTimestamp sampleClock sampleClock "06:00:00" ⟨0, 1, 1, 6, 0, 0, 0⟩
      sampleClock.now 36000 rfl (steadyAround_FixedZone 36000 _ (by decide) (by decide))⟩

/-- C2 as stated fails where the clock's location has a zone transition.
In New York the clocks go from 02:00:00 to 03:00:00 on March 8, 2015; for an
open event at 02:30:00 asked at 12:00:00 of that date `asTimestamp` returns
an instant at 01:30:00, not at the parsed hour. -/
theorem timeOfDay_open_asTimestamp_counterexample :
    parseFields "15:04:05" "02:30:00" = .ok ⟨0, 1, 1, 2, 30, 0, 0⟩ ∧
    ∃ e t, newEvent sampleClock (some ⟨"time-of-day", "02:30:00"⟩) false = (some e, none) ∧
      e.asTimestamp (sampleNewYorkClock (Date 2015 3 8 12 0 0 0 sampleNewYork))
        (Date 2015 3 8 12 0 0 0 sampleNewYork) = some t ∧
      t.Hour = 1 ∧ t.Minute = 30 ∧ t.Second = 0 ∧ t.Hour ≠ 2 :=
  ⟨rfl, _, _, rfl, rfl, by decide, by decide, by decide, by decide⟩

/-- C2, amended: a time-of-day event built with closeEvent=false from a
parameter that parses under `15:04:05`, a clock and a reference instant
such that the clock's location keeps one offset `c` from a day before the
start of the calendar date of the reference to three days after it. Before
or after the time of day, `asTimestamp` returns an instant that has, in the
clock's location, the year, month and day of the reference and the parsed
hour, minute and second. -/
theorem timeOfDay_open_asTimestamp (clock0 clock : Clock) (param : String) (f : Fields)
    (ref : Time) (c : Int) (hp : parseFields "15:04:05" param = .ok f)
    (hS : clock.location.steadyAround ref c) :
    ∃ e t, newEvent clock0 (some ⟨"time-of-day", param⟩) false = (some e, none) ∧
      e.asTimestamp clock ref = some t ∧ t.loc = clock.location ∧
      t.Year = ref.Year ∧ t.Month = ref.Month ∧ t.Day = ref.Day ∧
      t.Hour = f.hour ∧ t.Minute = f.min ∧ t.Second = f.sec := by
  obtain ⟨-, -, -, hh, hmi, hs, hns⟩ :=
    clockFields_ok param.toList f (by rw [← parseFields_clock]; exact hp)
  obtain ⟨e1, e2, e3⟩ := parsed_clock f.hour f.min f.sec f.nsec hh hmi hs hns
  obtain ⟨⟨a0, a1, a2, a3, a4, a5, a6, -⟩, -⟩ :=
    projected_isAt clock.location (Date 0 1 1 f.hour f.min f.sec f.nsec UTC) ref c hS
  rw [e1] at a4
  rw [e2] at a5
  rw [e3] at a6
  refine ⟨_, _, newEvent_timeOfDay clock0 param false f hp, ?_, a0, a1, a2, a3, a4, a5, a6⟩
  simp only [Event.asTimestamp]
  rw [timeOfDay_asTimestamp_projected clock _ _ ref rfl]
  simp only [Bool.false_eq_true, and_false, if_false]

/-- C2, at 06:00:00 asked at 07:00:00, ten hours east of UTC. -/
theorem timeOfDay_open_asTimestamp_witness :
    parseFields "15:04:05" "06:00:00" = .ok ⟨0, 1, 1, 6, 0, 0, 0⟩ ∧
    sampleClock.location.steadyAround sampleClock.now 36000 ∧
    ∃ e t, newEvent sampleClock (some ⟨"time-of-day", "06:00:00"⟩) false = (some e, none) ∧
      e.asTimestamp sampleClock sampleClock.now = some t ∧ t.loc = sampleClock.location ∧
      t.Year = sampleClock.now.Year ∧ t.Month = sampleClock.now.Month ∧
      t.Day = sampleClock.now.Day ∧ t.Hour = 6 ∧ t.Minute = 0 ∧ t.Second = 0 :=
  ⟨rfl, steadyAround_FixedZone 36000 _ (by decide) (by decide),
    timeOfDay_open_asTimestamp sampleClock sampleClock "06:00:00" ⟨0, 1, 1, 6, 0, 0, 0⟩
      sampleClock.now 36000 rfl (steadyAround_FixedZone 36000 _ (by decide) (by decide))⟩

/-- Every event that `newEvent` returns: there is a specification, no
error comes with the event, the variant is the one of the rule, the parsed
time is present and the function field is bound to the method
`asTimestamp` of the variant. -/
theorem newEvent_built (clock0 : Clock) (m : Option model.Event) (closeEvent : Bool) (e : Event)
    (h : (newEvent clock0 m closeEvent).1 = some e) :
    ∃ x parsed fn, m = some x ∧ (newEvent clock0 m closeEvent).2 = none ∧
      e.timeEvent.parsed = some parsed ∧ e.timeEvent.asTimestamp = some fn ∧
      (∀ clock ref, fn clock ref = e.asTimestamp clock ref) ∧
      ((x.Rule = "timestamp" ∧ ∃ t, e = .timestamp t ∧
          ParseInLocation "2006-01-02 15:04:05" x.Param clock0.location = .ok parsed) ∨
        (x.Rule = "time-of-day" ∧ ∃ t, e = .timeOfDay t ∧ t.closeEvent = closeEvent ∧
          Parse "15:04:05" x.Param = .ok parsed) ∨
        (x.Rule = "delay" ∧ ∃ t, e = .delay t ∧ Parse "15:04:05" x.Param = .ok parsed) ∨
        (x.Rule = "sunset" ∧ ∃ t, e = .sunset t ∧ t.timeOfDay.closeEvent = closeEvent ∧
          Parse "15:04:05" "18:00:00" = .ok parsed) ∨
        (x.Rule = "sunrise" ∧ ∃ t, e = .sunrise t ∧ t.timeOfDay.closeEvent = closeEvent ∧
          Parse "15:04:05" "06:00:00" = .ok parsed)) := by
  cases m with
  | none => simp [newEvent] at h
  | some x =>
    unfold newEvent at h ⊢
    simp only at h ⊢
    split_ifs at h ⊢ with h1 h2 h3 h4 h5
    · split at h
      · rename_i parsed hp
        simp only [Option.some.injEq] at h
        subst h
        exact ⟨x, parsed, _, rfl, rfl, rfl, rfl, fun _ _ => rfl, Or.inl ⟨h1, _, rfl, hp⟩⟩
      · simp at h
    · split at h
      · rename_i parsed hp
        simp only [Option.some.injEq] at h
        subst h
        exact ⟨x, parsed, _, rfl, rfl, rfl, rfl, fun _ _ => rfl,
          Or.inr (Or.inl ⟨h2, _, rfl, rfl, hp⟩)⟩
      · simp at h
    · split at h
      · rename_i parsed hp
        simp only [Option.some.injEq] at h
        subst h
        exact ⟨x, parsed, _, rfl, rfl, rfl, rfl, fun _ _ => rfl,
          Or.inr (Or.inr (Or.inl ⟨h3, _, rfl, hp⟩))⟩
      · simp at h
    · split at h
      · rename_i parsed hp
        simp only [Option.some.injEq] at h
        subst h
        exact ⟨x, parsed, _, rfl, rfl, rfl, rfl, fun _ _ => rfl,
          Or.inr (Or.inr (Or.inr (Or.inl ⟨h4, _, rfl, rfl, hp⟩)))⟩
      · simp at h
    · split at h
      · rename_i parsed hp
        simp only [Option.some.injEq] at h
        subst h
        exact ⟨x, parsed, _, rfl, rfl, rfl, rfl, fun _ _ => rfl,
          Or.inr (Or.inr (Or.inr (Or.inr ⟨h5, _, rfl, rfl, hp⟩)))⟩
      · simp at h

/-- The delay event that `newEvent` builds from a parameter that parses. -/
theorem newEvent_delay (clock0 : Clock) (param : String) (closeEvent : Bool) (f : Fields)
    (hp : parseFields "15:04:05" param = .ok f) :
    newEvent clock0 (some ⟨"delay", param⟩) closeEvent
      = (some (.delay ⟨⟨some (Date 0 1 1 f.hour f.min f.sec f.nsec UTC),
            some (fun _ ref => delay.asTimestamp
              ⟨⟨some (Date 0 1 1 f.hour f.min f.sec f.nsec UTC), none⟩⟩ ref)⟩⟩), none) := by
  have e := Parse_clock param f hp
  simp only [newEvent, e]
  rfl

/-- The timestamp event that `newEvent` builds from a parameter that
parses. -/
theorem newEvent_timestamp (clock0 : Clock) (param : String) (closeEvent : Bool) (parsed : Time)
    (hp : ParseInLocation "2006-01-02 15:04:05" param clock0.location = .ok parsed) :
    newEvent clock0 (some ⟨"timestamp", param⟩) closeEvent
      = (some (.timestamp ⟨⟨some parsed,
            some (fun _ ref => timestamp.asTimestamp ⟨⟨some parsed, none⟩⟩ ref)⟩⟩), none) := by
  simp only [newEvent, hp]
  rfl

/-- C3: a delay event built from a parameter that parses under `15:04:05`.
For every reference instant, `asTimestamp` returns the reference plus the
hours, minutes and seconds read from the parameter: the difference of the
two instants, and what `Sub` returns for them, is exactly that offset. -/
theorem delay_asTimestamp (clock0 clock : Clock) (param : String) (closeEvent : Bool)
    (f : Fields) (ref : Time) (hp : parseFields "15:04:05" param = .ok f) :
    ∃ e t, newEvent clock0 (some ⟨"delay", param⟩) closeEvent = (some e, none) ∧
      e.asTimestamp clock ref = some t ∧
      t = ref.Add (f.hour * Hour + f.min * Minute + f.sec * Second) ∧
      t.ns - ref.ns = f.hour * Hour + f.min * Minute + f.sec * Second ∧
      t.Sub ref = f.hour * Hour + f.min * Minute + f.sec * Second := by
  obtain ⟨-, -, -, hh, hmi, hs, hns⟩ :=
    clockFields_ok param.toList f (by rw [← parseFields_clock]; exact hp)
  obtain ⟨e1, e2, e3⟩ := parsed_clock f.hour f.min f.sec f.nsec hh hmi hs hns
  refine ⟨_, _, newEvent_delay clock0 param closeEvent f hp, ?_, rfl, ?_, ?_⟩
  · simp only [Event.asTimestamp, delay.asTimestamp, e1, e2, e3]
  · simp only [Time.Add]; omega
  · rw [Sub_exact]
    · simp only [Time.Add]; omega
    · simp only [Time.Add, minDuration, Hour, Minute, Second]; omega
    · simp only [Time.Add, maxDuration, Hour, Minute, Second]; omega

/-- C3, at a delay of five seconds. -/
theorem delay_asTimestamp_witness :
    parseFields "15:04:05" "00:00:05" = .ok ⟨0, 1, 1, 0, 0, 5, 0⟩ ∧
    ∃ e t, newEvent sampleClock (some ⟨"delay", "00:00:05"⟩) false = (some e, none) ∧
      e.asTimestamp sampleClock sampleClock.now = some t ∧
      t = sampleClock.now.Add (0 * Hour + 0 * Minute + 5 * Second) ∧
      t.ns - sampleClock.now.ns = 0 * Hour + 0 * Minute + 5 * Second ∧
      t.Sub sampleClock.now = 0 * Hour + 0 * Minute + 5 * Second :=
  ⟨rfl, delay_asTimestamp sampleClock sampleClock "00:00:05" false ⟨0, 1, 1, 0, 0, 5, 0⟩
    sampleClock.now rfl⟩

/-- C4: a timestamp event built from a parameter that parses. For every
reference instant, `hasFinalEventOccurred` is true exactly when the
reference is at or after the parsed instant, and false exactly when the
reference is strictly before it. -/
theorem timestamp_hasFinalEventOccurred (clock0 : Clock) (param : String) (closeEvent : Bool)
    (parsed : Time)
    (hp : ParseInLocation "2006-01-02 15:04:05" param clock0.location = .ok parsed) :
    ∃ e, newEvent clock0 (some ⟨"timestamp", param⟩) closeEvent = (some e, none) ∧
      ∀ ref : Time, e.hasFinalEventOccurred ref = some (decide (parsed.ns ≤ ref.ns)) ∧
        (e.hasFinalEventOccurred ref = some true ↔ parsed.ns ≤ ref.ns) ∧
        (e.hasFinalEventOccurred ref = some false ↔ ref.ns < parsed.ns) := by
  refine ⟨_, newEvent_timestamp clock0 param closeEvent parsed hp, fun ref => ?_⟩
  have hs := (Sub_sign parsed ref).2.1
  simp only [Event.hasFinalEventOccurred, timestamp.hasFinalEventOccurred, timestamp.asTimestamp,
    Option.some.injEq, decide_eq_true_eq, decide_eq_false_iff_not, hs, not_le, and_self]

/-- C4, at a timestamp of 08:00:00 on January 1, 2015. -/
theorem timestamp_hasFinalEventOccurred_witness :
    ParseInLocation "2006-01-02 15:04:05" "2015-01-01 08:00:00" sampleClock.location
      = .ok (Date 2015 1 1 8 0 0 0 (FixedZone 36000)) ∧
    ∃ e, newEvent sampleClock (some ⟨"timestamp", "2015-01-01 08:00:00"⟩) false
        = (some e, none) ∧
      ∀ ref : Time,
        e.hasFinalEventOccurred ref
          = some (decide ((Date 2015 1 1 8 0 0 0 (FixedZone 36000)).ns ≤ ref.ns)) ∧
        (e.hasFinalEventOccurred ref = some true
          ↔ (Date 2015 1 1 8 0 0 0 (FixedZone 36000)).ns ≤ ref.ns) ∧
        (e.hasFinalEventOccurred ref = some false
          ↔ ref.ns < (Date 2015 1 1 8 0 0 0 (FixedZone 36000)).ns) :=
  ⟨rfl, timestamp_hasFinalEventOccurred sampleClock "2015-01-01 08:00:00" false _ rfl⟩

/-- C5: a timestamp event built from a parameter that parses. For every
clock and every reference instant `asTimestamp` returns the parsed instant,
and `isRecurring` is false. -/
theorem timestamp_asTimestamp_const (clock0 : Clock) (param : String) (closeEvent : Bool)
    (parsed : Time)
    (hp : ParseInLocation "2006-01-02 15:04:05" param clock0.location = .ok parsed) :
    ∃ e, newEvent clock0 (some ⟨"timestamp", param⟩) closeEvent = (some e, none) ∧
      (∀ (clock : Clock) (ref : Time), e.asTimestamp clock ref = some parsed) ∧
      e.isRecurring = false :=
  ⟨_, newEvent_timestamp clock0 param closeEvent parsed hp, fun _ _ => rfl, rfl⟩

/-- C5, at a timestamp of 08:00:00 on January 1, 2015. -/
theorem timestamp_asTimestamp_const_witness :
    ParseInLocation "2006-01-02 15:04:05" "2015-01-01 08:00:00" sampleClock.location
      = .ok (Date 2015 1 1 8 0 0 0 (FixedZone 36000)) ∧
    ∃ e, newEvent sampleClock (some ⟨"timestamp", "2015-01-01 08:00:00"⟩) true
        = (some e, none) ∧
      (∀ (clock : Clock) (ref : Time),
        e.asTimestamp clock ref = some (Date 2015 1 1 8 0 0 0 (FixedZone 36000))) ∧
      e.isRecurring = false :=
  ⟨rfl, timestamp_asTimestamp_const sampleClock "2015-01-01 08:00:00" true _ rfl⟩

/-- C6: every event that `newEvent` builds from rule time-of-day, delay,
sunset or sunrise, with either closeEvent, is recurring, and
`hasFinalEventOccurred` is false at every reference instant. -/
theorem recurring_rules (clock0 : Clock) (rule param : String) (closeEvent : Bool) (e : Event)
    (hr : rule = "time-of-day" ∨ rule = "delay" ∨ rule = "sunset" ∨ rule = "sunrise")
    (hn : newEvent clock0 (some ⟨rule, param⟩) closeEvent = (some e, none)) :
    e.isRecurring = true ∧ ∀ ref : Time, e.hasFinalEventOccurred ref = some false := by
  have hne : rule ≠ "timestamp" := by
    rcases hr with h | h | h | h <;> rw [h] <;> decide
  obtain ⟨x, parsed, fn, hx, -, -, -, -, hk⟩ :=
    newEvent_built clock0 (some ⟨rule, param⟩) closeEvent e (by rw [hn])
  simp only [Option.some.injEq] at hx
  subst hx
  rcases hk with ⟨h, -⟩ | ⟨-, t, rfl, -⟩ | ⟨-, t, rfl, -⟩ | ⟨-, t, rfl, -⟩ | ⟨-, t, rfl, -⟩
  · exact absurd h hne
  all_goals exact ⟨rfl, fun _ => rfl⟩

/-- C6, at rule sunset. -/
theorem recurring_rules_witness :
    ∃ e, newEvent sampleClock (some ⟨"sunset", ""⟩) true = (some e, none) ∧
      e.isRecurring = true ∧ ∀ ref : Time, e.hasFinalEventOccurred ref = some false :=
  ⟨_, rfl, recurring_rules sampleClock "sunset" "" true _ (Or.inr (Or.inr (Or.inl rfl))) rfl⟩

/-- C7: `newEvent` returns either an error and no event or an event and no
error. It returns an error and no event exactly for the specifications to
refuse, and an event and no error exactly for all others. -/
theorem newEvent_refuses (clock0 : Clock) (m : Option model.Event) (closeEvent : Bool) :
    (((newEvent clock0 m closeEvent).1 = none ∧ (newEvent clock0 m closeEvent).2.isSome = true)
        ↔ refused clock0 m) ∧
    (((newEvent clock0 m closeEvent).1.isSome = true ∧ (newEvent clock0 m closeEvent).2 = none)
        ↔ ¬ refused clock0 m) := by
  cases m with
  | none => simp [newEvent, refused]
  | some x =>
    have hss : Parse "15:04:05" "18:00:00" = .ok (Date 0 1 1 18 0 0 0 UTC) := rfl
    have hsr : Parse "15:04:05" "06:00:00" = .ok (Date 0 1 1 6 0 0 0 UTC) := rfl
    have d1 : ("time-of-day" : String) ≠ "timestamp" := by decide
    have d2 : ("delay" : String) ≠ "timestamp" := by decide
    have d3 : ("delay" : String) ≠ "time-of-day" := by decide
    have d4 : ("sunset" : String) ≠ "timestamp" := by decide
    have d5 : ("sunset" : String) ≠ "time-of-day" := by decide
    have d6 : ("sunset" : String) ≠ "delay" := by decide
    have d7 : ("sunrise" : String) ≠ "timestamp" := by decide
    have d8 : ("sunrise" : String) ≠ "time-of-day" := by decide
    have d9 : ("sunrise" : String) ≠ "delay" := by decide
    have d10 : ("sunrise" : String) ≠ "sunset" := by decide
    unfold newEvent refused
    simp only
    by_cases h1 : x.Rule = "timestamp"
    · simp only [h1, if_true]
      cases hp : ParseInLocation "2006-01-02 15:04:05" x.Param clock0.location <;>
        simp [Except.isOk, Except.toBool]
    · by_cases h2 : x.Rule = "time-of-day"
      · simp only [h2, d1, if_false, if_true]
        cases hp : Parse "15:04:05" x.Param <;> simp [Except.isOk, Except.toBool]
      · by_cases h3 : x.Rule = "delay"
        · simp only [h3, d2, d3, if_false, if_true]
          cases hp : Parse "15:04:05" x.Param <;> simp [Except.isOk, Except.toBool]
        · by_cases h4 : x.Rule = "sunset"
          · simp only [h4, d4, d5, d6, if_false, if_true, hss]
            simp
          · by_cases h5 : x.Rule = "sunrise"
            · simp only [h5, d7, d8, d9, d10, if_false, if_true, hsr]
              simp
            · simp [h1, h2, h3, h4, h5]

/-! ## The waiter -/

/-- A send into a channel just made with room for one value puts the value
into it. -/
theorem send_fresh (w : World) (v : Time) :
    (w.makeChan 1).2.send w.chans.length v
      = some { clock := w.clock, chans := w.chans ++ [⟨1, [v]⟩] } := by
  simp [World.makeChan, World.send]

/-- A receive that does not wait, on a channel that holds one value at the
end of the list of channels. -/
theorem tryRecv_last (clock : Clock) (chans : List Chan) (cap : Nat) (v : Time) :
    (World.mk clock (chans ++ [⟨cap, [v]⟩])).tryRecv chans.length
      = some (v, { clock := clock, chans := chans ++ [⟨cap, []⟩] }) := by
  simp [World.tryRecv]

/-- What `waiter` does for an event that `newEvent` built, by the instant
that `asTimestamp` returns. -/
theorem waiter_built (clock0 : Clock) (m : Option model.Event) (closeEvent : Bool) (e : Event)
    (w : World) (ref ts : Time) (hn : newEvent clock0 m closeEvent = (some e, none))
    (ht : e.asTimestamp w.clock ref = some ts) :
    e.waiter w ref
      = if ts.Sub w.clock.now > 0 then
          some (w.chans.length,
            { clock := { w.clock with
                timers := w.clock.timers ++ [⟨w.clock.now.ns + ts.Sub w.clock.now, w.chans.length⟩] },
              chans := w.chans ++ [⟨1, []⟩] })
        else
          some (w.chans.length, { clock := w.clock, chans := w.chans ++ [⟨1, [w.clock.now]⟩] }) := by
  obtain ⟨x, parsed, fn, -, -, -, hf, hfn, -⟩ :=
    newEvent_built clock0 m closeEvent e (by rw [hn])
  have hw : e.waiter w ref = e.timeEvent.waiter w ref := by cases e <;> rfl
  rw [hw]
  simp only [timeEvent.waiter, hf, hfn, ht]
  split
  · rfl
  · have h1 : (w.makeChan 1).1 = w.chans.length := rfl
    rw [h1, send_fresh]

/-- Running a callback leaves the clock as it is. -/
theorem fire_clock (w : World) (tm : Timer) : (w.fire tm).clock = w.clock := by
  simp only [World.fire, World.send]
  split
  · rfl
  · split <;> rfl

/-- Running a callback leaves the channels it does not send to as they
are. -/
theorem fire_other (w : World) (tm : Timer) (ch : Nat) (h : tm.ch ≠ ch) :
    (w.fire tm).chans.get? ch = w.chans.get? ch := by
  simp only [World.fire, World.send]
  split
  · rfl
  · split
    · simp [List.getElem?_set_ne h]
    · rfl

/-- Running a callback whose channel is empty, with room for one value,
puts the clock's now into the channel. -/
theorem fire_same (w : World) (tm : Timer) (h : w.chans.get? tm.ch = some ⟨1, []⟩) :
    (w.fire tm).chans.get? tm.ch = some ⟨1, [w.clock.now]⟩ := by
  have hlt : tm.ch < w.chans.length := by
    by_contra hc
    rw [List.get?_eq_none.mpr (by omega)] at h
    exact absurd h (by simp)
  simp only [World.fire, World.send, h, List.length_nil, Nat.lt_one_iff, if_true,
    List.nil_append, Option.getD_some]
  simp [hlt]

/-- Running callbacks leaves the clock as it is. -/
theorem foldl_fire_clock (l : List Timer) (w : World) : (l.foldl World.fire w).clock = w.clock := by
  induction l generalizing w with
  | nil => rfl
  | cons tm rest ih => rw [List.foldl_cons, ih, fire_clock]

/-- Running callbacks leaves a channel that none of them sends to as it
is. -/
theorem foldl_fire_other (l : List Timer) (w : World) (ch : Nat) (h : ∀ tm ∈ l, tm.ch ≠ ch) :
    (l.foldl World.fire w).chans.get? ch = w.chans.get? ch := by
  induction l generalizing w with
  | nil => rfl
  | cons tm rest ih =>
    rw [List.foldl_cons, ih _ (fun t ht => h t (List.mem_cons_of_mem _ ht)),
      fire_other w tm ch (h tm (List.mem_cons_self _ _))]

/-- The clock after `SetNow`: the new now, and the callbacks not yet due. -/
theorem SetNow_clock (w : World) (t : Time) :
    (w.SetNow t).clock
      = { w.clock with now := t, timers := w.clock.timers.filter (fun tm => ¬ tm.due ≤ t.ns) } := by
  simp only [World.SetNow, foldl_fire_clock]

/-- A channel that no scheduled callback sends to is left as it is by
`SetNow`, and no callback sends to it afterwards. -/
theorem SetNow_done (w : World) (t : Time) (ch : Nat) (h : ∀ tm ∈ w.clock.timers, tm.ch ≠ ch) :
    (w.SetNow t).chans.get? ch = w.chans.get? ch ∧
      ∀ tm ∈ (w.SetNow t).clock.timers, tm.ch ≠ ch := by
  constructor
  · simp only [World.SetNow]
    rw [foldl_fire_other _ _ ch (fun tm htm => h tm (List.mem_of_mem_filter htm))]
  · rw [SetNow_clock]
    exact fun tm htm => h tm (List.mem_of_mem_filter htm)

/-- An empty channel with one callback scheduled for it, and a step of the
clock to an instant before the callback is due: the channel stays empty
and the callback stays scheduled. -/
theorem SetNow_before (w : World) (t : Time) (ch : Nat) (due : Int) (l1 l2 : List Timer)
    (ht : w.clock.timers = l1 ++ ⟨due, ch⟩ :: l2) (h1 : ∀ tm ∈ l1, tm.ch ≠ ch)
    (h2 : ∀ tm ∈ l2, tm.ch ≠ ch) (hlt : t.ns < due) :
    (w.SetNow t).chans.get? ch = w.chans.get? ch ∧
      ∃ k1 k2, (w.SetNow t).clock.timers = k1 ++ ⟨due, ch⟩ :: k2 ∧
        (∀ tm ∈ k1, tm.ch ≠ ch) ∧ (∀ tm ∈ k2, tm.ch ≠ ch) := by
  have hnd : ¬ due ≤ t.ns := by omega
  constructor
  · simp only [World.SetNow, ht, List.filter_append, List.filter_cons, hnd, decide_False,
      Bool.false_eq_true, if_false]
    rw [foldl_fire_other]
    intro tm htm
    rcases List.mem_append.mp htm with hm | hm
    · exact h1 tm (List.mem_of_mem_filter hm)
    · exact h2 tm (List.mem_of_mem_filter hm)
  · rw [SetNow_clock]
    refine ⟨l1.filter (fun tm => ¬ tm.due ≤ t.ns), l2.filter (fun tm => ¬ tm.due ≤ t.ns), ?_,
      fun tm htm => h1 tm (List.mem_of_mem_filter htm),
      fun tm htm => h2 tm (List.mem_of_mem_filter htm)⟩
    simp only [ht, List.filter_append, List.filter_cons, hnd, not_false_eq_true, decide_True,
      if_true]

/-- Running callbacks of which exactly one sends to a channel that is empty,
with room for one value, puts the clock's now into that channel. -/
theorem foldl_fire_one (a b : List Timer) (w : World) (ch : Nat) (due : Int)
    (ha : ∀ tm ∈ a, tm.ch ≠ ch) (hb : ∀ tm ∈ b, tm.ch ≠ ch)
    (hc : w.chans.get? ch = some ⟨1, []⟩) :
    ((a ++ ⟨due, ch⟩ :: b).foldl World.fire w).chans.get? ch = some ⟨1, [w.clock.now]⟩ := by
  rw [List.foldl_append, List.foldl_cons, foldl_fire_other _ _ ch hb]
  have e := fire_same (List.foldl World.fire w a) ⟨due, ch⟩
    (by rw [foldl_fire_other _ _ ch ha]; exact hc)
  rw [foldl_fire_clock] at e
  exact e

/-- An empty channel with one callback scheduled for it, and a step of the
clock to an instant at which the callback is due: the channel holds the
new now, and no callback is scheduled for it any more. -/
theorem SetNow_reached (w : World) (t : Time) (ch : Nat) (due : Int) (l1 l2 : List Timer)
    (ht : w.clock.timers = l1 ++ ⟨due, ch⟩ :: l2) (h1 : ∀ tm ∈ l1, tm.ch ≠ ch)
    (h2 : ∀ tm ∈ l2, tm.ch ≠ ch) (hc : w.chans.get? ch = some ⟨1, []⟩) (hle : due ≤ t.ns) :
    (w.SetNow t).chans.get? ch = some ⟨1, [t]⟩ ∧
      ∀ tm ∈ (w.SetNow t).clock.timers, tm.ch ≠ ch := by
  constructor
  · have hd : w.clock.timers.filter (fun tm => decide (tm.due ≤ t.ns))
        = l1.filter (fun tm => decide (tm.due ≤ t.ns))
          ++ ⟨due, ch⟩ :: l2.filter (fun tm => decide (tm.due ≤ t.ns)) := by
      simp only [ht, List.filter_append, List.filter_cons, hle, decide_True, if_true]
    simp only [World.SetNow]
    rw [hd]
    exact foldl_fire_one _ _ ⟨_, w.chans⟩ ch due
      (fun tm htm => h1 tm (List.mem_of_mem_filter htm))
      (fun tm htm => h2 tm (List.mem_of_mem_filter htm)) hc
  · rw [SetNow_clock]
    have hnd : ¬ ¬ due ≤ t.ns := by omega
    simp only [ht, List.filter_append, List.filter_cons, hnd, decide_False, Bool.false_eq_true,
      if_false]
    intro tm htm
    rcases List.mem_append.mp htm with hm | hm
    · exact h1 tm (List.mem_of_mem_filter hm)
    · exact h2 tm (List.mem_of_mem_filter hm)

/-- A channel that no scheduled callback sends to keeps what it holds,
however the clock steps. -/
theorem run_done (steps : List Time) (w : World) (ch : Nat)
    (h : ∀ tm ∈ w.clock.timers, tm.ch ≠ ch) :
    (w.run steps).chans.get? ch = w.chans.get? ch := by
  induction steps generalizing w with
  | nil => rfl
  | cons t rest ih =>
    obtain ⟨e1, e2⟩ := SetNow_done w t ch h
    simp only [World.run, List.foldl_cons] at ih ⊢
    rw [ih _ e2, e1]

/-- An empty channel with one callback scheduled for it, however the clock
steps: the channel is empty as long as no step reaches the instant the
callback is due at, and from the first step that reaches it on, it holds
the instant of that step and nothing else. -/
theorem run_pending (steps : List Time) (w : World) (ch : Nat) (due : Int) (l1 l2 : List Timer)
    (ht : w.clock.timers = l1 ++ ⟨due, ch⟩ :: l2) (h1 : ∀ tm ∈ l1, tm.ch ≠ ch)
    (h2 : ∀ tm ∈ l2, tm.ch ≠ ch) (hc : w.chans.get? ch = some ⟨1, []⟩) :
    (w.run steps).chans.get? ch
      = some ⟨1, (steps.find? (fun t => decide (due ≤ t.ns))).toList⟩ := by
  induction steps generalizing w l1 l2 with
  | nil => exact hc
  | cons t rest ih =>
    by_cases hle : due ≤ t.ns
    · obtain ⟨e1, e2⟩ := SetNow_reached w t ch due l1 l2 ht h1 h2 hc hle
      have hr := run_done rest (w.SetNow t) ch e2
      simp only [World.run, List.foldl_cons] at hr ⊢
      rw [hr, e1]
      simp [List.find?_cons, hle]
    · obtain ⟨e1, k1, k2, e2, e3, e4⟩ := SetNow_before w t ch due l1 l2 ht h1 h2 (by omega)
      have hr := ih (w.SetNow t) k1 k2 e2 e3 e4 (by rw [e1]; exact hc)
      simp only [World.run, List.foldl_cons] at hr ⊢
      rw [hr]
      simp [List.find?_cons, hle]

/-- Running a callback makes no channel and drops none. -/
theorem fire_length (w : World) (tm : Timer) : (w.fire tm).chans.length = w.chans.length := by
  simp only [World.fire, World.send]
  split
  · rfl
  · split
    · simp
    · rfl

/-- Running callbacks makes no channel and drops none. -/
theorem foldl_fire_length (l : List Timer) (w : World) :
    (l.foldl World.fire w).chans.length = w.chans.length := by
  induction l generalizing w with
  | nil => rfl
  | cons tm rest ih => rw [List.foldl_cons, ih, fire_length]

/-- A step of the clock keeps every scheduled callback on a channel that
has been made. -/
theorem wf_SetNow (w : World) (t : Time) (h : w.wf) : (w.SetNow t).wf := by
  intro tm htm
  rw [SetNow_clock] at htm
  have hl : (w.SetNow t).chans.length = w.chans.length := by
    simp only [World.SetNow, foldl_fire_length]
  rw [hl]
  exact h tm (List.mem_of_mem_filter htm)

/-- The method `waiter`, on an event that `newEvent` built, keeps every
scheduled callback on a channel that has been made. -/
theorem wf_waiter (clock0 : Clock) (m : Option model.Event) (closeEvent : Bool) (e : Event)
    (w w1 : World) (ref ts : Time) (ch : Nat)
    (hn : newEvent clock0 m closeEvent = (some e, none))
    (ht : e.asTimestamp w.clock ref = some ts) (h : w.wf)
    (hw : e.waiter w ref = some (ch, w1)) : w1.wf := by
  rw [waiter_built clock0 m closeEvent e w ref ts hn ht] at hw
  split at hw
  · simp only [Option.some.injEq, Prod.mk.injEq] at hw
    obtain ⟨-, rfl⟩ := hw
    intro tm htm
    simp only [List.length_append, List.length_singleton]
    rcases List.mem_append.mp htm with hm | hm
    · exact Nat.lt_succ_of_lt (h tm hm)
    · simp only [List.mem_singleton] at hm
      rw [hm]
      exact Nat.lt_succ_self _
  · simp only [Option.some.injEq, Prod.mk.injEq] at hw
    obtain ⟨-, rfl⟩ := hw
    intro tm htm
    simp only [List.length_append, List.length_singleton]
    exact Nat.lt_succ_of_lt (h tm htm)

/-- C8: an event that `newEvent` built, and a reference instant for which
`asTimestamp` is at or before the clock's now. Then `waiter` schedules no
callback (the clock is as before), makes one channel and returns it, and
the channel holds exactly one value, the clock's now; a receive that does
not wait takes that value from it. -/
theorem waiter_fires_at_once (clock0 : Clock) (m : Option model.Event) (closeEvent : Bool)
    (e : Event) (w : World) (ref ts : Time)
    (hn : newEvent clock0 m closeEvent = (some e, none))
    (ht : e.asTimestamp w.clock ref = some ts) (hle : ts.ns ≤ w.clock.now.ns) :
    ∃ w1, e.waiter w ref = some (w.chans.length, w1) ∧ w1.clock = w.clock ∧
      w1.chans = w.chans ++ [⟨1, [w.clock.now]⟩] ∧
      w1.chans.get? w.chans.length = some ⟨1, [w.clock.now]⟩ ∧
      ∃ w2, w1.tryRecv w.chans.length = some (w.clock.now, w2) := by
  have hs : ¬ ts.Sub w.clock.now > 0 := by
    have := (Sub_sign ts w.clock.now).2.1.mpr hle
    omega
  refine ⟨⟨w.clock, w.chans ++ [⟨1, [w.clock.now]⟩]⟩, ?_, rfl, rfl, ?_, _,
    tryRecv_last w.clock w.chans 1 w.clock.now⟩
  · rw [waiter_built clock0 m closeEvent e w ref ts hn ht, if_neg hs]
  · simp

/-- C8, at 06:00:00 asked at 07:00:00, the event open. -/
theorem waiter_fires_at_once_witness :
    ∃ e ts, newEvent sampleClock (some ⟨"time-of-day", "06:00:00"⟩) false = (some e, none) ∧
      e.asTimestamp sampleWorld.clock sampleClock.now = some ts ∧
      ts.ns ≤ sampleWorld.clock.now.ns ∧
      ∃ w1, e.waiter sampleWorld sampleClock.now = some (sampleWorld.chans.length, w1) ∧
        w1.clock = sampleWorld.clock ∧
        w1.chans = sampleWorld.chans ++ [⟨1, [sampleWorld.clock.now]⟩] ∧
        w1.chans.get? sampleWorld.chans.length = some ⟨1, [sampleWorld.clock.now]⟩ ∧
        ∃ w2, w1.tryRecv sampleWorld.chans.length = some (sampleWorld.clock.now, w2) :=
  ⟨_, Date 2015 1 1 6 0 0 0 (FixedZone 36000), rfl, rfl, by decide,
    waiter_fires_at_once sampleClock (some ⟨"time-of-day", "06:00:00"⟩) false _ sampleWorld
      sampleClock.now (Date 2015 1 1 6 0 0 0 (FixedZone 36000)) rfl rfl (by decide)⟩

/-- C9 as amended: an event that `newEvent` built, a state in which every
scheduled callback sends to a channel already made, and a reference instant
for which `asTimestamp` is strictly after the clock's now. Then `waiter`
makes one channel and returns it empty, and schedules exactly one callback,
with the duration that `Sub` gives: the difference of the two instants
when that is at most the largest `Duration`, and the largest `Duration`
otherwise. However the clock steps after that, the channel is empty as
long as no step reaches now plus that duration, and from the first step
that reaches it on, it holds the clock's now of that step and nothing
else. -/
theorem waiter_deferred (clock0 : Clock) (m : Option model.Event) (closeEvent : Bool)
    (e : Event) (w : World) (ref ts : Time)
    (hn : newEvent clock0 m closeEvent = (some e, none)) (hwf : w.wf)
    (ht : e.asTimestamp w.clock ref = some ts) (hgt : w.clock.now.ns < ts.ns) :
    ∃ w1, e.waiter w ref = some (w.chans.length, w1) ∧
      w1.chans = w.chans ++ [⟨1, []⟩] ∧
      w1.clock = { w.clock with timers := w.clock.timers ++
        [⟨w.clock.now.ns + ts.Sub w.clock.now, w.chans.length⟩] } ∧
      ts.Sub w.clock.now = (if ts.ns - w.clock.now.ns ≤ maxDuration then ts.ns - w.clock.now.ns
        else maxDuration) ∧
      ∀ steps : List Time, (w1.run steps).chans.get? w.chans.length
        = some ⟨1, (steps.find?
            (fun t => decide (w.clock.now.ns + ts.Sub w.clock.now ≤ t.ns))).toList⟩ := by
  have hs : ts.Sub w.clock.now > 0 := (Sub_sign ts w.clock.now).2.2.mpr hgt
  refine ⟨⟨{ w.clock with timers := w.clock.timers ++
      [⟨w.clock.now.ns + ts.Sub w.clock.now, w.chans.length⟩] }, w.chans ++ [⟨1, []⟩]⟩,
    ?_, rfl, rfl, ?_, fun steps => ?_⟩
  · rw [waiter_built clock0 m closeEvent e w ref ts hn ht, if_pos hs]
  · simp only [Time.Sub, minDuration, maxDuration]
    split
    · omega
    · split <;> split <;> omega
  · exact run_pending steps _ w.chans.length _ w.clock.timers [] rfl
      (fun tm htm => Nat.ne_of_lt (hwf tm htm)) (fun _ h => absurd h (List.not_mem_nil _))
      (by simp)

/-- C9 as amended, at a delay of five seconds. -/
theorem waiter_deferred_witness :
    ∃ e ts, newEvent sampleClock (some ⟨"delay", "00:00:05"⟩) false = (some e, none) ∧
      sampleWorld.wf ∧ e.asTimestamp sampleWorld.clock sampleClock.now = some ts ∧
      sampleWorld.clock.now.ns < ts.ns ∧
      ∃ w1, e.waiter sampleWorld sampleClock.now = some (sampleWorld.chans.length, w1) ∧
        w1.chans = sampleWorld.chans ++ [⟨1, []⟩] ∧
        w1.clock = { sampleWorld.clock with timers := sampleWorld.clock.timers ++
          [⟨sampleWorld.clock.now.ns + ts.Sub sampleWorld.clock.now, sampleWorld.chans.length⟩] } ∧
        ts.Sub sampleWorld.clock.now
          = (if ts.ns - sampleWorld.clock.now.ns ≤ maxDuration then
              ts.ns - sampleWorld.clock.now.ns
            else maxDuration) ∧
        ∀ steps : List Time, (w1.run steps).chans.get? sampleWorld.chans.length
          = some ⟨1, (steps.find? (fun t =>
              decide (sampleWorld.clock.now.ns + ts.Sub sampleWorld.clock.now ≤ t.ns))).toList⟩ :=
  ⟨_, sampleClock.now.Add (5 * Second), rfl, fun _ h => absurd h (List.not_mem_nil _),
    by decide, by decide,
    waiter_deferred sampleClock (some ⟨"delay", "00:00:05"⟩) false _ sampleWorld
      sampleClock.now (sampleClock.now.Add (5 * Second)) rfl
      (fun _ h => absurd h (List.not_mem_nil _)) (by decide) (by decide)⟩

/-- C9 as stated fails for a target further from now than the largest
`Duration`. A timestamp event for January 1, 9999, asked at 07:00:00 on
January 1, 2015: the callback is scheduled with the largest `Duration`,
which is less than the difference of the two instants, and a step of the
clock to now plus that duration, still before the target, delivers a
value. -/
theorem waiter_deferred_counterexample :
    ∃ e w1, newEvent sampleClock (some ⟨"timestamp", "9999-01-01 00:00:00"⟩) false
        = (some e, none) ∧
      e.asTimestamp sampleWorld.clock sampleClock.now
        = some (Date 9999 1 1 0 0 0 0 (FixedZone 36000)) ∧
      sampleWorld.clock.now.ns < (Date 9999 1 1 0 0 0 0 (FixedZone 36000)).ns ∧
      e.waiter sampleWorld sampleClock.now = some (0, w1) ∧
      w1.clock.timers = [⟨sampleClock.now.ns + maxDuration, 0⟩] ∧
      maxDuration < (Date 9999 1 1 0 0 0 0 (FixedZone 36000)).ns - sampleClock.now.ns ∧
      (sampleClock.now.Add maxDuration).ns < (Date 9999 1 1 0 0 0 0 (FixedZone 36000)).ns ∧
      (w1.SetNow (sampleClock.now.Add maxDuration)).chans.get? 0
        = some ⟨1, [sampleClock.now.Add maxDuration]⟩ :=
  ⟨_, ⟨{ sampleClock with timers := [⟨sampleClock.now.ns + maxDuration, 0⟩] }, [⟨1, []⟩]⟩,
    rfl, by decide, by decide, by decide, rfl, by decide, by decide, by decide⟩

/-- C10 fails on the code. An open time-of-day event for 06:00:00, armed at
07:00:00 on January 1, 2015: the waiter fires at once and the value is
received; the caller records 07:00:00 as the last-fired instant; the clock
steps to 08:00:00 on the same day and a new waiter is asked for. Its target
is 06:00:00 on that same day, and its channel holds a value at once: the
event fires a second time on the day it last fired on. -/
theorem waiter_refires_same_day :
    ∃ e w1 w2 w3 w4,
      newEvent sampleClock (some ⟨"time-of-day", "06:00:00"⟩) false = (some e, none) ∧
      Armed.waiter sampleWorld ⟨e, none⟩ sampleClock.now = some (0, w1) ∧
      w1.tryRecv 0 = some (sampleClock.now, w2) ∧
      ((Armed.mk e none).setLastFired sampleClock.now).lastFired = some sampleClock.now ∧
      (w2.SetNow sampleLater).clock.now = sampleLater ∧
      e.asTimestamp (w2.SetNow sampleLater).clock sampleLater
        = some (Date 2015 1 1 6 0 0 0 (FixedZone 36000)) ∧
      (sampleClock.now.Year, sampleClock.now.Month, sampleClock.now.Day) = (2015, 1, 1) ∧
      Armed.waiter (w2.SetNow sampleLater) ((Armed.mk e none).setLastFired sampleClock.now)
        sampleLater = some (1, w3) ∧
      w3.tryRecv 1 = some (sampleLater, w4) :=
  ⟨_, ⟨sampleClock, [⟨1, [sampleClock.now]⟩]⟩, ⟨sampleClock, [⟨1, []⟩]⟩,
    ⟨{ sampleClock with now := sampleLater }, [⟨1, []⟩, ⟨1, [sampleLater]⟩]⟩,
    ⟨{ sampleClock with now := sampleLater }, [⟨1, []⟩, ⟨1, []⟩]⟩,
    rfl, by decide, by decide, rfl, by decide, by decide, by decide, by decide, by decide⟩

/-! ## Sunset and sunrise; totality -/

/-- The sunset event that `newEvent` builds, whatever the parameter. -/
theorem newEvent_sunset (clock0 : Clock) (param : String) (closeEvent : Bool) :
    newEvent clock0 (some ⟨"sunset", param⟩) closeEvent
      = (some (.sunset ⟨⟨⟨some (Date 0 1 1 18 0 0 0 UTC),
            some (fun clock ref => sunset.asTimestamp clock
              ⟨⟨⟨some (Date 0 1 1 18 0 0 0 UTC), none⟩, closeEvent⟩⟩ ref)⟩,
          closeEvent⟩⟩), none) := rfl

/-- The sunrise event that `newEvent` builds, whatever the parameter. -/
theorem newEvent_sunrise (clock0 : Clock) (param : String) (closeEvent : Bool) :
    newEvent clock0 (some ⟨"sunrise", param⟩) closeEvent
      = (some (.sunrise ⟨⟨⟨some (Date 0 1 1 6 0 0 0 UTC),
            some (fun clock ref => sunrise.asTimestamp clock
              ⟨⟨⟨some (Date 0 1 1 6 0 0 0 UTC), none⟩, closeEvent⟩⟩ ref)⟩,
          closeEvent⟩⟩), none) := rfl

/-- C11: for every parameter and either closeEvent, `newEvent` with rule
sunset returns an event and no error, as it does for rule time-of-day with
parameter 18:00:00, and the two events have the same `asTimestamp` for
every clock and reference instant, the same `isRecurring` and the same
`hasFinalEventOccurred` for every reference instant; likewise rule sunrise
and rule time-of-day with parameter 06:00:00. -/
theorem sunset_sunrise_as_timeOfDay (clock0 : Clock) (param : String) (closeEvent : Bool) :
    (∃ e1 e2, newEvent clock0 (some ⟨"sunset", param⟩) closeEvent = (some e1, none) ∧
      newEvent clock0 (some ⟨"time-of-day", "18:00:00"⟩) closeEvent = (some e2, none) ∧
      (∀ (clock : Clock) (ref : Time), e1.asTimestamp clock ref = e2.asTimestamp clock ref) ∧
      e1.isRecurring = e2.isRecurring ∧
      ∀ ref : Time, e1.hasFinalEventOccurred ref = e2.hasFinalEventOccurred ref) ∧
    (∃ e1 e2, newEvent clock0 (some ⟨"sunrise", param⟩) closeEvent = (some e1, none) ∧
      newEvent clock0 (some ⟨"time-of-day", "06:00:00"⟩) closeEvent = (some e2, none) ∧
      (∀ (clock : Clock) (ref : Time), e1.asTimestamp clock ref = e2.asTimestamp clock ref) ∧
      e1.isRecurring = e2.isRecurring ∧
      ∀ ref : Time, e1.hasFinalEventOccurred ref = e2.hasFinalEventOccurred ref) := by
  constructor
  · exact ⟨_, _, newEvent_sunset clock0 param closeEvent,
      newEvent_timeOfDay clock0 "18:00:00" closeEvent ⟨0, 1, 1, 18, 0, 0, 0⟩ rfl,
      fun _ _ => rfl, rfl, fun _ => rfl⟩
  · exact ⟨_, _, newEvent_sunrise clock0 param closeEvent,
      newEvent_timeOfDay clock0 "06:00:00" closeEvent ⟨0, 1, 1, 6, 0, 0, 0⟩ rfl,
      fun _ _ => rfl, rfl, fun _ => rfl⟩

/-- C12: every event that `newEvent` returns without error has its parsed
time present, and `asTimestamp`, `hasFinalEventOccurred` and `waiter`
return a value, not a nil dereference, for every clock, state and reference
instant; `hasTimestamp` is true. The methods `isRecurring` and
`hasTimestamp` read nothing of the event and have no failing branch. -/
theorem built_event_total (clock0 : Clock) (m : Option model.Event) (closeEvent : Bool)
    (e : Event) (hn : newEvent clock0 m closeEvent = (some e, none)) :
    e.timeEvent.parsed.isSome = true ∧ e.timeEvent.asTimestamp.isSome = true ∧
      e.hasTimestamp = true ∧
      (∀ (clock : Clock) (ref : Time), (e.asTimestamp clock ref).isSome = true) ∧
      (∀ ref : Time, (e.hasFinalEventOccurred ref).isSome = true) ∧
      ∀ (w : World) (ref : Time), (e.waiter w ref).isSome = true := by
  obtain ⟨x, parsed, fn, -, -, hp, hf, hfn, hk⟩ :=
    newEvent_built clock0 m closeEvent e (by rw [hn])
  have hts : ∀ (clock : Clock) (ref : Time), (e.asTimestamp clock ref).isSome = true := by
    intro clock ref
    rcases hk with ⟨-, t, rfl, -⟩ | ⟨-, t, rfl, -⟩ | ⟨-, t, rfl, -⟩ | ⟨-, t, rfl, -⟩ |
      ⟨-, t, rfl, -⟩
    · simp only [Event.timeEvent] at hp
      simp [Event.asTimestamp, timestamp.asTimestamp, hp]
    · simp only [Event.timeEvent] at hp
      simp only [Event.asTimestamp, timeOfDay.asTimestamp, hp]
      split <;> rfl
    · simp only [Event.timeEvent] at hp
      simp [Event.asTimestamp, delay.asTimestamp, hp]
    · simp only [Event.timeEvent] at hp
      simp only [Event.asTimestamp, sunset.asTimestamp, timeOfDay.asTimestamp, hp]
      split <;> rfl
    · simp only [Event.timeEvent] at hp
      simp only [Event.asTimestamp, sunrise.asTimestamp, timeOfDay.asTimestamp, hp]
      split <;> rfl
  refine ⟨by rw [hp]; rfl, by rw [hf]; rfl, by cases e <;> rfl,
    hts, fun ref => ?_, fun w ref => ?_⟩
  · cases e with
    | timestamp t =>
      have h1 := hts sampleClock ref
      simp only [Event.asTimestamp] at h1
      simp only [Event.hasFinalEventOccurred, timestamp.hasFinalEventOccurred]
      split
      · rename_i h2; rw [h2] at h1; exact absurd h1 (by simp)
      · rfl
    | timeOfDay t => rfl
    | delay t => rfl
    | sunset t => rfl
    | sunrise t => rfl
  · obtain ⟨ts, hts2⟩ := Option.isSome_iff_exists.mp (hts w.clock ref)
    rw [waiter_built clock0 m closeEvent e w ref ts hn hts2]
    split <;> rfl

/-- C12, at rule sunrise. -/
theorem built_event_total_witness :
    ∃ e, newEvent sampleClock (some ⟨"sunrise", ""⟩) true = (some e, none) ∧
      e.timeEvent.parsed.isSome = true ∧ e.timeEvent.asTimestamp.isSome = true ∧
      e.hasTimestamp = true ∧
      (∀ (clock : Clock) (ref : Time), (e.asTimestamp clock ref).isSome = true) ∧
      (∀ ref : Time, (e.hasFinalEventOccurred ref).isSome = true) ∧
      ∀ (w : World) (ref : Time), (e.waiter w ref).isSome = true :=
  ⟨_, rfl, built_event_total sampleClock (some ⟨"sunrise", ""⟩) true _ rfl⟩

/-! ## Timestamp events -/

/-- The method `(*timestamp).hasFinalEventOccurred` on a parsed timestamp:
true exactly when the timestamp is at or before the reference. -/
theorem timestamp_hasFinal_eq (fn : Option (Clock → Time → Option Time)) (parsed ref : Time) :
    timestamp.hasFinalEventOccurred ⟨⟨some parsed, fn⟩⟩ ref
      = some (decide (parsed.ns ≤ ref.ns)) := by
  have hs := (Sub_sign parsed ref).2.1
  simp only [timestamp.hasFinalEventOccurred, timestamp.asTimestamp, hs]

/-- C14: for a timestamp event that `newEvent` built, `hasFinalEventOccurred`
is monotone in the reference instant: true at `r1` and `r1` at or before
`r2` give true at `r2`. -/
theorem timestamp_hasFinal_monotone (clock0 : Clock) (param : String) (closeEvent : Bool)
    (e : Event) (r1 r2 : Time)
    (hn : newEvent clock0 (some ⟨"timestamp", param⟩) closeEvent = (some e, none))
    (hle : r1.ns ≤ r2.ns) (h1 : e.hasFinalEventOccurred r1 = some true) :
    e.hasFinalEventOccurred r2 = some true := by
  obtain ⟨x, parsed, fn, hx, -, -, -, -, hk⟩ :=
    newEvent_built clock0 (some ⟨"timestamp", param⟩) closeEvent e (by rw [hn])
  simp only [Option.some.injEq] at hx
  subst hx
  have hp : ParseInLocation "2006-01-02 15:04:05" param clock0.location = .ok parsed := by
    rcases hk with ⟨-, t, -, h⟩ | ⟨h, -⟩ | ⟨h, -⟩ | ⟨h, -⟩ | ⟨h, -⟩
    · exact h
    all_goals exact absurd (show ("timestamp" : String) = _ from h) (by decide)
  rw [newEvent_timestamp clock0 param closeEvent parsed hp] at hn
  simp only [Prod.mk.injEq, Option.some.injEq, and_true] at hn
  subst hn
  simp only [Event.hasFinalEventOccurred, timestamp_hasFinal_eq, Option.some.injEq,
    decide_eq_true_eq] at h1 ⊢
  omega

/-- C14, at a timestamp of 08:00:00, asked at 08:00:00 and again later. -/
theorem timestamp_hasFinal_monotone_witness :
    ∃ e, newEvent sampleClock (some ⟨"timestamp", "2015-01-01 08:00:00"⟩) false
        = (some e, none) ∧
      sampleLater.ns ≤ (sampleLater.Add Hour).ns ∧
      e.hasFinalEventOccurred sampleLater = some true ∧
      e.hasFinalEventOccurred (sampleLater.Add Hour) = some true :=
  ⟨_, rfl, by decide, by decide,
    timestamp_hasFinal_monotone sampleClock "2015-01-01 08:00:00" false _ sampleLater
      (sampleLater.Add Hour) rfl (by decide) (by decide)⟩

/-- C15: for rules timestamp and delay `newEvent` returns the same pair
with closeEvent true as with closeEvent false, so the events built agree on
`asTimestamp`, `isRecurring` and `hasFinalEventOccurred`; and a timestamp
event built with closeEvent true returns its parsed instant for every
reference, also when that instant is before the reference. -/
theorem closeEvent_ignored (clock0 : Clock) (rule param : String)
    (hr : rule = "timestamp" ∨ rule = "delay") :
    newEvent clock0 (some ⟨rule, param⟩) true = newEvent clock0 (some ⟨rule, param⟩) false ∧
    (∀ e1 e2 : Event, (newEvent clock0 (some ⟨rule, param⟩) true).1 = some e1 →
      (newEvent clock0 (some ⟨rule, param⟩) false).1 = some e2 →
      (∀ (clock : Clock) (ref : Time), e1.asTimestamp clock ref = e2.asTimestamp clock ref) ∧
      e1.isRecurring = e2.isRecurring ∧
      ∀ ref : Time, e1.hasFinalEventOccurred ref = e2.hasFinalEventOccurred ref) ∧
    (∀ (e : Event) (parsed : Time), rule = "timestamp" →
      (newEvent clock0 (some ⟨rule, param⟩) true).1 = some e →
      ParseInLocation "2006-01-02 15:04:05" param clock0.location = .ok parsed →
      ∀ (clock : Clock) (ref : Time), e.asTimestamp clock ref = some parsed ∧
        (parsed.ns < ref.ns → ∀ t, e.asTimestamp clock ref = some t → t.ns ≤ ref.ns)) := by
  have heq : newEvent clock0 (some ⟨rule, param⟩) true
      = newEvent clock0 (some ⟨rule, param⟩) false := by
    rcases hr with rfl | rfl <;> rfl
  refine ⟨heq, ?_, ?_⟩
  · intro e1 e2 h1 h2
    rw [heq, h2] at h1
    simp only [Option.some.injEq] at h1
    subst h1
    exact ⟨fun _ _ => rfl, rfl, fun _ => rfl⟩
  · intro e parsed hrule h1 hp clock ref
    subst hrule
    rw [newEvent_timestamp clock0 param true parsed hp] at h1
    simp only [Option.some.injEq] at h1
    subst h1
    refine ⟨rfl, fun hlt t ht => ?_⟩
    simp only [Event.asTimestamp, timestamp.asTimestamp, Option.some.injEq] at ht
    subst ht
    omega

/-- C15, at rule delay. -/
theorem closeEvent_ignored_witness :
    ("delay" = "timestamp" ∨ "delay" = "delay") ∧
    newEvent sampleClock (some ⟨"delay", "00:00:05"⟩) true
      = newEvent sampleClock (some ⟨"delay", "00:00:05"⟩) false :=
  ⟨Or.inr rfl, (closeEvent_ignored sampleClock "delay" "00:00:05" (Or.inr rfl)).1⟩

/-- C19: for a timestamp event that `newEvent` built, in every state and
for every reference instant, `waiter` takes the branch that fires at once
(nothing scheduled, the clock's now already in the channel) exactly when
`hasFinalEventOccurred` is true at the clock's now, and otherwise the
branch that schedules a callback; the result is the same for every
reference instant. -/
theorem timestamp_waiter_agrees (clock0 : Clock) (param : String) (closeEvent : Bool)
    (parsed : Time)
    (hp : ParseInLocation "2006-01-02 15:04:05" param clock0.location = .ok parsed) :
    ∃ e, newEvent clock0 (some ⟨"timestamp", param⟩) closeEvent = (some e, none) ∧
      ∀ (w : World) (ref : Time),
        (e.waiter w ref
            = some (w.chans.length, ⟨w.clock, w.chans ++ [⟨1, [w.clock.now]⟩]⟩)
          ↔ e.hasFinalEventOccurred w.clock.now = some true) ∧
        (e.waiter w ref
            = some (w.chans.length,
                ⟨{ w.clock with timers := w.clock.timers ++
                    [⟨w.clock.now.ns + parsed.Sub w.clock.now, w.chans.length⟩] },
                  w.chans ++ [⟨1, []⟩]⟩)
          ↔ e.hasFinalEventOccurred w.clock.now = some false) ∧
        ∀ ref2 : Time, e.waiter w ref = e.waiter w ref2 := by
  have hn := newEvent_timestamp clock0 param closeEvent parsed hp
  refine ⟨_, hn, fun w ref => ?_⟩
  have hw : ∀ r : Time, Event.waiter w (.timestamp ⟨⟨some parsed,
      some (fun _ ref => timestamp.asTimestamp ⟨⟨some parsed, none⟩⟩ ref)⟩⟩) r = _ :=
    fun r => waiter_built clock0 _ closeEvent _ w r parsed hn rfl
  have hs := Sub_sign parsed w.clock.now
  simp only [hw, Event.hasFinalEventOccurred, timestamp_hasFinal_eq, Option.some.injEq,
    decide_eq_true_eq, decide_eq_false_iff_not, implies_true, and_true]
  by_cases hpos : parsed.Sub w.clock.now > 0
  · have hlt : ¬ parsed.ns ≤ w.clock.now.ns := by
      have := hs.2.2.mp hpos
      omega
    simp [hpos, hlt]
  · have hle : parsed.ns ≤ w.clock.now.ns := by
      have := hs.2.1
      omega
    simp [hpos, hle]

/-- C19, at a timestamp of 08:00:00 on January 1, 2015. -/
theorem timestamp_waiter_agrees_witness :
    ParseInLocation "2006-01-02 15:04:05" "2015-01-01 08:00:00" sampleClock.location
      = .ok sampleLater ∧
    ∃ e, newEvent sampleClock (some ⟨"timestamp", "2015-01-01 08:00:00"⟩) false
        = (some e, none) ∧
      ∀ (w : World) (ref : Time),
        (e.waiter w ref
            = some (w.chans.length, ⟨w.clock, w.chans ++ [⟨1, [w.clock.now]⟩]⟩)
          ↔ e.hasFinalEventOccurred w.clock.now = some true) ∧
        (e.waiter w ref
            = some (w.chans.length,
                ⟨{ w.clock with timers := w.clock.timers ++
                    [⟨w.clock.now.ns + sampleLater.Sub w.clock.now, w.chans.length⟩] },
                  w.chans ++ [⟨1, []⟩]⟩)
          ↔ e.hasFinalEventOccurred w.clock.now = some false) ∧
        ∀ ref2 : Time, e.waiter w ref = e.waiter w ref2 :=
  ⟨rfl, timestamp_waiter_agrees sampleClock "2015-01-01 08:00:00" false sampleLater rfl⟩

/-! ## Daily events: next occurrence, idempotence, monotonicity -/

/-- The offset of the sample location Berlin at every instant. -/
theorem lookup_sampleBerlin (x : Int) :
    (sampleBerlin.lookup x).1
      = if x < 63563187600 then 3600 else if x < 63581331600 then 7200 else 3600 := by
  have e1 : (Date 2015 3 29 1 0 0 0 UTC).ns / 1000000000 = 63563187600 := by decide
  have e2 : (Date 2015 10 25 1 0 0 0 UTC).ns / 1000000000 = 63581331600 := by decide
  simp only [Location.lookup, sampleBerlin, Location.lookupFrom, e1, e2]
  split
  · rfl
  · split <;> rfl

/-- The sample location New York is steady, four hours west of UTC, around
every date of the summer of 2015 that is two days at least from the zone
transitions. -/
theorem steadyAround_sampleNewYork (day : Time) (h1 : 63561394800 + 86400 ≤ day.dayStart)
    (h2 : day.dayStart + 3 * 86400 < 63581954400) :
    sampleNewYork.steadyAround day (-14400) := by
  refine ⟨by decide, by decide, fun x hx1 hx2 => ?_⟩
  rw [lookup_sampleNewYork]
  split
  · omega
  · split
    · rfl
    · omega

/-- What `asTimestamp` returns for every event that `newEvent` builds from
rule time-of-day, sunset or sunrise: the parsed time is that of the
parameter, of 18:00:00 or of 06:00:00, and the result is the projected
instant, one calendar day on when it is before the reference and the event
is a close event. -/
theorem daily_asTimestamp (clock0 : Clock) (rule param : String) (closeEvent : Bool) (e : Event)
    (hr : rule = "time-of-day" ∨ rule = "sunset" ∨ rule = "sunrise")
    (hn : newEvent clock0 (some ⟨rule, param⟩) closeEvent = (some e, none)) :
    ∃ parsed : Time, e.timeEvent.parsed = some parsed ∧
      ((rule = "time-of-day" ∧ Parse "15:04:05" param = .ok parsed) ∨
        (rule = "sunset" ∧ Parse "15:04:05" "18:00:00" = .ok parsed) ∨
        (rule = "sunrise" ∧ Parse "15:04:05" "06:00:00" = .ok parsed)) ∧
      ∀ (clock : Clock) (ref : Time),
        e.asTimestamp clock ref
          = some (if (projected clock.location parsed ref).ns < ref.ns ∧ closeEvent = true then
              (projected clock.location parsed ref).AddDate 0 0 1
            else projected clock.location parsed ref) := by
  obtain ⟨x, parsed, fn, hx, -, hp, -, -, hk⟩ :=
    newEvent_built clock0 (some ⟨rule, param⟩) closeEvent e (by rw [hn])
  simp only [Option.some.injEq] at hx
  subst hx
  refine ⟨parsed, hp, ?_⟩
  rcases hk with ⟨h, -⟩ | ⟨h, t, rfl, hc, hq⟩ | ⟨h, -⟩ | ⟨h, t, rfl, hc, hq⟩ |
    ⟨h, t, rfl, hc, hq⟩
  · have h3 : rule = _ := h
    rcases hr with h2 | h2 | h2 <;> rw [h2] at h3 <;> exact absurd h3 (by decide)
  · refine ⟨Or.inl ⟨h, hq⟩, fun clock ref => ?_⟩
    rw [← hc]
    exact timeOfDay_asTimestamp_projected clock t parsed ref hp
  · have h3 : rule = _ := h
    rcases hr with h2 | h2 | h2 <;> rw [h2] at h3 <;> exact absurd h3 (by decide)
  · refine ⟨Or.inr (Or.inl ⟨h, hq⟩), fun clock ref => ?_⟩
    rw [← hc]
    exact timeOfDay_asTimestamp_projected clock t.timeOfDay parsed ref hp
  · refine ⟨Or.inr (Or.inr ⟨h, hq⟩), fun clock ref => ?_⟩
    rw [← hc]
    exact timeOfDay_asTimestamp_projected clock t.timeOfDay parsed ref hp

/-- Where the location is steady around the date of the reference: the
instant that a daily event returns is the projected instant, 24 hours on
when it is before the reference and the event is a close event. -/
theorem daily_result (loc : Location) (parsed ref : Time) (closeEvent : Bool) (c : Int)
    (hS : loc.steadyAround ref c) :
    (if (projected loc parsed ref).ns < ref.ns ∧ closeEvent = true then
        (projected loc parsed ref).AddDate 0 0 1
      else projected loc parsed ref)
      = if (ref.abs / 86400 * 86400
            + (parsed.Hour * 3600 + parsed.Minute * 60 + parsed.Second) - c) * 1000000000
            < ref.ns ∧ closeEvent = true then
          ⟨((ref.abs / 86400 + 1) * 86400
            + (parsed.Hour * 3600 + parsed.Minute * 60 + parsed.Second) - c)
            * 1000000000 + 0, loc⟩
        else ⟨((ref.abs / 86400 + 0) * 86400
            + (parsed.Hour * 3600 + parsed.Minute * 60 + parsed.Second) - c)
            * 1000000000 + 0, loc⟩ := by
  obtain ⟨n1, n2⟩ := projected_next loc parsed ref c hS
  rw [n1, n2, projected_ns loc parsed ref c hS]
  simp only [add_zero]

/-- C16 as stated fails where the clock's location has a zone transition.
In New York the clocks go back from 02:00:00 to 01:00:00 on November 1,
2015. For a close event at 01:30:00 asked at 01:45:00 daylight time of that
date (05:45:00 UTC) `asTimestamp` returns 01:30:00 of November 2, 24 hours
and 45 minutes later, though 01:30:00 standard time of November 1
(06:30:00 UTC) is at that time of day, after the reference and before the
instant returned. -/
theorem daily_close_next_counterexample :
    ∃ e t q, newEvent sampleClock (some ⟨"time-of-day", "01:30:00"⟩) true = (some e, none) ∧
      ((Date 2015 11 1 5 45 0 0 UTC).In sampleNewYork).loc = sampleNewYork ∧
      e.asTimestamp (sampleNewYorkClock ((Date 2015 11 1 5 45 0 0 UTC).In sampleNewYork))
        ((Date 2015 11 1 5 45 0 0 UTC).In sampleNewYork) = some t ∧
      t = Date 2015 11 2 1 30 0 0 sampleNewYork ∧
      t.ns - ((Date 2015 11 1 5 45 0 0 UTC).In sampleNewYork).ns = 24 * Hour + 45 * Minute ∧
      ¬ t.ns - ((Date 2015 11 1 5 45 0 0 UTC).In sampleNewYork).ns < 24 * Hour ∧
      q = (Date 2015 11 1 6 30 0 0 UTC).In sampleNewYork ∧
      q.isAt sampleNewYork ((Date 2015 11 1 5 45 0 0 UTC).In sampleNewYork) 1 30 0 ∧
      ((Date 2015 11 1 5 45 0 0 UTC).In sampleNewYork).ns ≤ q.ns ∧ q.ns < t.ns :=
  ⟨_, _, _, rfl, rfl, rfl, by decide, by decide, by decide, rfl, by decide, by decide,
    by decide⟩

/-- C16, amended: an event built from rule time-of-day, sunset or sunrise
with closeEvent=true, a clock and a reference instant such that the offset
`c` is in force at the reference (in its location, the clock's or one that
agrees with it there) and the clock's location keeps `c` from a day before
the start of the calendar date of the reference to three days after it.
`asTimestamp` returns the next instant at or after the reference that is,
in the clock's location, at the hour, minute and second of the parsed time
(that of the parameter, 18:00:00 for sunset, 06:00:00 for sunrise) and zero
nanoseconds: the instant returned is such an instant, it is at or after the
reference and less than 24 hours after it, which `Sub` gives exactly, and
no such instant at or after the reference is before it. -/
theorem daily_close_next (clock0 clock : Clock) (rule param : String) (e : Event) (ref : Time)
    (c : Int) (hr : rule = "time-of-day" ∨ rule = "sunset" ∨ rule = "sunrise")
    (hn : newEvent clock0 (some ⟨rule, param⟩) true = (some e, none))
    (hz : ref.zoneOffset = c) (hS : clock.location.steadyAround ref c) :
    ∃ parsed t, e.timeEvent.parsed = some parsed ∧
      ((rule = "time-of-day" ∧ Parse "15:04:05" param = .ok parsed) ∨
        (rule = "sunset" ∧ Parse "15:04:05" "18:00:00" = .ok parsed) ∨
        (rule = "sunrise" ∧ Parse "15:04:05" "06:00:00" = .ok parsed)) ∧
      e.asTimestamp clock ref = some t ∧
      t.loc = clock.location ∧ t.Hour = parsed.Hour ∧ t.Minute = parsed.Minute ∧
      t.Second = parsed.Second ∧ t.Nanosecond = 0 ∧
      ref.ns ≤ t.ns ∧ t.ns - ref.ns < 24 * Hour ∧ t.Sub ref = t.ns - ref.ns ∧
      ∀ q : Time, q.loc = clock.location → q.Hour = parsed.Hour → q.Minute = parsed.Minute →
        q.Second = parsed.Second → q.Nanosecond = 0 → ref.ns ≤ q.ns → t.ns ≤ q.ns := by
  obtain ⟨parsed, hp, hk, hts⟩ := daily_asTimestamp clock0 rule param true e hr hn
  obtain ⟨hh, hmi, hs, -⟩ := parsed.clock_range
  refine ⟨parsed, _, hp, hk, hts clock ref, ?_⟩
  rw [daily_result clock.location parsed ref true c hS]
  obtain ⟨-, -, -, a1, a2, a3, a4⟩ :=
    projected_fields clock.location parsed ref c 0 hS (by omega)
  obtain ⟨-, -, -, b1, b2, b3, b4⟩ :=
    projected_fields clock.location parsed ref c 1 hS (by omega)
  obtain ⟨c1, c2, hl⟩ := hS
  simp only [Time.dayStart, secondsPerDay] at hl
  have ha : ref.abs = ref.ns / 1000000000 + c := by
    rw [← hz]
    rfl
  obtain ⟨n, hn⟩ : ∃ n, n = ref.abs / 86400 := ⟨_, rfl⟩
  obtain ⟨x, hx⟩ : ∃ x, x = ref.ns / 1000000000 := ⟨_, rfl⟩
  rw [← hn] at hl a1 a2 a3 a4 b1 b2 b3 b4 ⊢
  rw [← hx] at ha
  obtain ⟨H, hH⟩ : ∃ H, H = parsed.Hour := ⟨_, rfl⟩
  obtain ⟨M, hM⟩ : ∃ M, M = parsed.Minute := ⟨_, rfl⟩
  obtain ⟨S, hS⟩ : ∃ S, S = parsed.Second := ⟨_, rfl⟩
  rw [← hH] at hh a1 a2 a3 a4 b1 b2 b3 b4 ⊢
  rw [← hM] at hmi a1 a2 a3 a4 b1 b2 b3 b4 ⊢
  rw [← hS] at hs a1 a2 a3 a4 b1 b2 b3 b4 ⊢
  simp only [and_true]
  split
  · rename_i hlt
    refine ⟨rfl, b1, b2, b3, b4, ?_, ?_, ?_, ?_⟩
    · dsimp only
      omega
    · simp only [Hour, Minute, Second]
      omega
    · apply Sub_exact
      · simp only [minDuration]
        omega
      · simp only [maxDuration]
        omega
    · intro q hq qh qm qs qn hle
      by_contra hcon
      dsimp only at hcon hlt
      have hqx : (clock.location.lookup (q.ns / 1000000000)).1 = c :=
        hl _ (by omega) (by omega)
      have hqa : q.abs = q.ns / 1000000000 + c := by
        simp only [Time.abs, hq, hqx]
      simp only [Time.Hour, Time.Minute, Time.Second, Time.Nanosecond, secondsPerDay] at qh qm qs qn
      omega
  · rename_i hge
    refine ⟨rfl, a1, a2, a3, a4, ?_, ?_, ?_, ?_⟩
    · dsimp only at hge ⊢
      omega
    · dsimp only at hge ⊢
      simp only [Hour, Minute, Second]
      omega
    · apply Sub_exact
      · dsimp only at hge ⊢
        simp only [minDuration]
        omega
      · dsimp only at hge ⊢
        simp only [maxDuration]
        omega
    · intro q hq qh qm qs qn hle
      by_contra hcon
      dsimp only at hcon hge
      have hqx : (clock.location.lookup (q.ns / 1000000000)).1 = c :=
        hl _ (by omega) (by omega)
      have hqa : q.abs = q.ns / 1000000000 + c := by
        simp only [Time.abs, hq, hqx]
      simp only [Time.Hour, Time.Minute, Time.Second, Time.Nanosecond, secondsPerDay] at qh qm qs qn
      omega

/-- C16, in New York at 06:00:00 asked at 07:00:00 on July 1, 2015. -/
theorem daily_close_next_witness :
    ("time-of-day" = "time-of-day" ∨ "time-of-day" = "sunset" ∨ "time-of-day" = "sunrise") ∧
    (Date 2015 7 1 7 0 0 0 sampleNewYork).loc = sampleNewYork ∧
    (Date 2015 7 1 7 0 0 0 sampleNewYork).zoneOffset = -14400 ∧
    sampleNewYork.steadyAround (Date 2015 7 1 7 0 0 0 sampleNewYork) (-14400) ∧
    ∃ e, newEvent sampleClock (some ⟨"time-of-day", "06:00:00"⟩) true = (some e, none) ∧
      ∃ parsed t, e.timeEvent.parsed = some parsed ∧
        (("time-of-day" = "time-of-day" ∧ Parse "15:04:05" "06:00:00" = .ok parsed) ∨
          ("time-of-day" = "sunset" ∧ Parse "15:04:05" "18:00:00" = .ok parsed) ∨
          ("time-of-day" = "sunrise" ∧ Parse "15:04:05" "06:00:00" = .ok parsed)) ∧
        e.asTimestamp (sampleNewYorkClock (Date 2015 7 1 7 0 0 0 sampleNewYork))
          (Date 2015 7 1 7 0 0 0 sampleNewYork) = some t ∧
        t.loc = sampleNewYork ∧ t.Hour = parsed.Hour ∧ t.Minute = parsed.Minute ∧
        t.Second = parsed.Second ∧ t.Nanosecond = 0 ∧
        (Date 2015 7 1 7 0 0 0 sampleNewYork).ns ≤ t.ns ∧
        t.ns - (Date 2015 7 1 7 0 0 0 sampleNewYork).ns < 24 * Hour ∧
        t.Sub (Date 2015 7 1 7 0 0 0 sampleNewYork)
          = t.ns - (Date 2015 7 1 7 0 0 0 sampleNewYork).ns ∧
        ∀ q : Time, q.loc = sampleNewYork → q.Hour = parsed.Hour →
          q.Minute = parsed.Minute → q.Second = parsed.Second → q.Nanosecond = 0 →
          (Date 2015 7 1 7 0 0 0 sampleNewYork).ns ≤ q.ns → t.ns ≤ q.ns :=
  ⟨Or.inl rfl, rfl, by decide, steadyAround_sampleNewYork _ (by decide) (by decide), _, rfl,
    daily_close_next sampleClock (sampleNewYorkClock (Date 2015 7 1 7 0 0 0 sampleNewYork))
      "time-of-day" "06:00:00" _ (Date 2015 7 1 7 0 0 0 sampleNewYork) (-14400) (Or.inl rfl) rfl
      (by decide) (steadyAround_sampleNewYork _ (by decide) (by decide))⟩

/-- C17 as stated fails where the clock's location has a zone transition.
In New York the clocks go from 02:00:00 to 03:00:00 on March 8, 2015. For a
close event at 02:30:00 asked at 01:45:00 of that date `asTimestamp`
returns 01:30:00 of March 9, and asked at that instant it returns 02:30:00
of March 9, another instant. -/
theorem daily_idempotent_counterexample :
    ∃ e t u, newEvent sampleClock (some ⟨"time-of-day", "02:30:00"⟩) true = (some e, none) ∧
      (Date 2015 3 8 1 45 0 0 sampleNewYork).loc = sampleNewYork ∧
      e.asTimestamp (sampleNewYorkClock (Date 2015 3 8 1 45 0 0 sampleNewYork))
        (Date 2015 3 8 1 45 0 0 sampleNewYork) = some t ∧
      t = Date 2015 3 9 1 30 0 0 sampleNewYork ∧
      e.asTimestamp (sampleNewYorkClock (Date 2015 3 8 1 45 0 0 sampleNewYork)) t = some u ∧
      u = Date 2015 3 9 2 30 0 0 sampleNewYork ∧ u ≠ t :=
  ⟨_, _, _, rfl, rfl, rfl, by decide, rfl, by decide, by decide⟩

/-- C17, amended: an event built from rule time-of-day, sunset or sunrise,
with either closeEvent, a clock and a reference instant such that the
clock's location keeps one offset `c` from a day before the start of the
calendar date of the reference to three days after it: `asTimestamp` at
the instant that `asTimestamp` returns is that instant again. -/
theorem daily_idempotent (clock0 clock : Clock) (rule param : String) (closeEvent : Bool)
    (e : Event) (ref : Time) (c : Int)
    (hr : rule = "time-of-day" ∨ rule = "sunset" ∨ rule = "sunrise")
    (hn : newEvent clock0 (some ⟨rule, param⟩) closeEvent = (some e, none))
    (hS : clock.location.steadyAround ref c) :
    ∃ t, e.asTimestamp clock ref = some t ∧ e.asTimestamp clock t = some t := by
  obtain ⟨parsed, -, -, hts⟩ := daily_asTimestamp clock0 rule param closeEvent e hr hn
  have ht := parsed.tod_range
  refine ⟨_, hts clock ref, ?_⟩
  rw [hts clock, daily_result clock.location parsed ref closeEvent c hS]
  obtain ⟨-, a0, -⟩ := projected_fields clock.location parsed ref c 0 hS (by omega)
  obtain ⟨-, b0, -⟩ := projected_fields clock.location parsed ref c 1 hS (by omega)
  obtain ⟨c1, c2, hl⟩ := hS
  simp only [Time.dayStart, secondsPerDay] at hl
  split
  · rw [projected_at clock.location parsed _ c (by rw [b0]; exact hl _ (by omega) (by omega))
      (by rw [b0]; exact hl _ (by omega) (by omega)), b0]
    simp only [add_zero, lt_self_iff_false, false_and, if_false]
  · rw [projected_at clock.location parsed _ c (by rw [a0]; exact hl _ (by omega) (by omega))
      (by rw [a0]; exact hl _ (by omega) (by omega)), a0]
    simp only [add_zero, lt_self_iff_false, false_and, if_false]

/-- C17, in New York at 06:00:00 asked at 07:00:00 on July 1, 2015, the
event a close event. -/
theorem daily_idempotent_witness :
    ("time-of-day" = "time-of-day" ∨ "time-of-day" = "sunset" ∨ "time-of-day" = "sunrise") ∧
    sampleNewYork.steadyAround (Date 2015 7 1 7 0 0 0 sampleNewYork) (-14400) ∧
    ∃ e, newEvent sampleClock (some ⟨"time-of-day", "06:00:00"⟩) true = (some e, none) ∧
      ∃ t, e.asTimestamp (sampleNewYorkClock (Date 2015 7 1 7 0 0 0 sampleNewYork))
          (Date 2015 7 1 7 0 0 0 sampleNewYork) = some t ∧
        e.asTimestamp (sampleNewYorkClock (Date 2015 7 1 7 0 0 0 sampleNewYork)) t = some t :=
  ⟨Or.inl rfl, steadyAround_sampleNewYork _ (by decide) (by decide), _, rfl,
    daily_idempotent sampleClock (sampleNewYorkClock (Date 2015 7 1 7 0 0 0 sampleNewYork))
      "time-of-day" "06:00:00" true _ (Date 2015 7 1 7 0 0 0 sampleNewYork) (-14400) (Or.inl rfl)
      rfl (steadyAround_sampleNewYork _ (by decide) (by decide))⟩

/-- C18 as stated fails where the clock's location has a zone transition.
In Berlin the clocks go from 02:00:00 to 03:00:00 on March 29, 2015. For a
close event at 02:30:00, asked at 04:00:00 of March 29 `asTimestamp`
returns 03:30:00 of March 30, and asked later, at 00:10:00 of March 30, it
returns 02:30:00 of March 30, an earlier instant. -/
theorem daily_monotone_counterexample :
    ∃ e t1 t2, newEvent sampleClock (some ⟨"time-of-day", "02:30:00"⟩) true = (some e, none) ∧
      (Date 2015 3 29 4 0 0 0 sampleBerlin).loc = sampleBerlin ∧
      (Date 2015 3 30 0 10 0 0 sampleBerlin).loc = sampleBerlin ∧
      (Date 2015 3 29 4 0 0 0 sampleBerlin).ns ≤ (Date 2015 3 30 0 10 0 0 sampleBerlin).ns ∧
      e.asTimestamp (sampleBerlinClock (Date 2015 3 29 4 0 0 0 sampleBerlin))
        (Date 2015 3 29 4 0 0 0 sampleBerlin) = some t1 ∧
      t1 = Date 2015 3 30 3 30 0 0 sampleBerlin ∧
      e.asTimestamp (sampleBerlinClock (Date 2015 3 29 4 0 0 0 sampleBerlin))
        (Date 2015 3 30 0 10 0 0 sampleBerlin) = some t2 ∧
      t2 = Date 2015 3 30 2 30 0 0 sampleBerlin ∧ ¬ t1.ns ≤ t2.ns :=
  ⟨_, _, _, rfl, rfl, rfl, by decide, rfl, by decide, rfl, by decide, by decide⟩

/-- C18, amended: an event built from rule time-of-day, sunset or sunrise,
with either closeEvent, a clock and two reference instants, the first at or
before the second, such that around each the clock's location is steady:
the offset in force at the reference (in its location, the clock's or one
that agrees with it there) is the one the clock's location keeps from a day
before the start of the calendar date of the reference to three days after
it. `asTimestamp` at the first is at or before `asTimestamp` at the
second. -/
theorem daily_monotone (clock0 clock : Clock) (rule param : String) (closeEvent : Bool)
    (e : Event) (r1 r2 : Time) (c1 c2 : Int)
    (hr : rule = "time-of-day" ∨ rule = "sunset" ∨ rule = "sunrise")
    (hn : newEvent clock0 (some ⟨rule, param⟩) closeEvent = (some e, none))
    (hz1 : r1.zoneOffset = c1) (hz2 : r2.zoneOffset = c2)
    (hS1 : clock.location.steadyAround r1 c1) (hS2 : clock.location.steadyAround r2 c2)
    (hle : r1.ns ≤ r2.ns) :
    ∃ t1 t2, e.asTimestamp clock r1 = some t1 ∧ e.asTimestamp clock r2 = some t2 ∧
      t1.ns ≤ t2.ns := by
  obtain ⟨parsed, -, -, hts⟩ := daily_asTimestamp clock0 rule param closeEvent e hr hn
  have ht := parsed.tod_range
  refine ⟨_, _, hts clock r1, hts clock r2, ?_⟩
  rw [daily_result clock.location parsed r1 closeEvent c1 hS1,
    daily_result clock.location parsed r2 closeEvent c2 hS2]
  obtain ⟨a1, a2, hl1⟩ := hS1
  obtain ⟨b1, b2, hl2⟩ := hS2
  simp only [Time.dayStart, secondsPerDay] at hl1 hl2
  have ha1 : r1.abs = r1.ns / 1000000000 + c1 := by
    rw [← hz1]
    rfl
  have ha2 : r2.abs = r2.ns / 1000000000 + c2 := by
    rw [← hz2]
    rfl
  obtain ⟨n1, hn1⟩ : ∃ n, n = r1.abs / 86400 := ⟨_, rfl⟩
  obtain ⟨n2, hn2⟩ : ∃ n, n = r2.abs / 86400 := ⟨_, rfl⟩
  obtain ⟨T, hT⟩ : ∃ T, T = parsed.Hour * 3600 + parsed.Minute * 60 + parsed.Second :=
    ⟨_, rfl⟩
  rw [← hn1] at hl1 ⊢
  rw [← hn2] at hl2 ⊢
  rw [← hT] at ht ⊢
  have hw : c1 = c2 ∨ n1 * 86400 + 3 * 86400 < n2 * 86400 - 86400 := by
    by_cases hcon : n1 * 86400 + 3 * 86400 < n2 * 86400 - 86400
    · exact Or.inr hcon
    · left
      by_cases hd : n1 ≤ n2
      · rw [← hl1 (n2 * 86400 - 86400) (by omega) (by omega),
          ← hl2 (n2 * 86400 - 86400) (by omega) (by omega)]
      · rw [← hl1 (n1 * 86400 - 86400) (by omega) (by omega),
          ← hl2 (n1 * 86400 - 86400) (by omega) (by omega)]
  cases closeEvent
  · simp only [Bool.false_eq_true, and_false, if_false]
    omega
  · simp only [and_true]
    split <;> split <;> dsimp only at * <;> omega

/-- C18, in New York at 06:00:00 asked at 07:00:00 and at 08:00:00 on July
1, 2015, the event a close event. -/
theorem daily_monotone_witness :
    ("time-of-day" = "time-of-day" ∨ "time-of-day" = "sunset" ∨ "time-of-day" = "sunrise") ∧
    (Date 2015 7 1 7 0 0 0 sampleNewYork).zoneOffset = -14400 ∧
    (Date 2015 7 1 8 0 0 0 sampleNewYork).zoneOffset = -14400 ∧
    sampleNewYork.steadyAround (Date 2015 7 1 7 0 0 0 sampleNewYork) (-14400) ∧
    sampleNewYork.steadyAround (Date 2015 7 1 8 0 0 0 sampleNewYork) (-14400) ∧
    (Date 2015 7 1 7 0 0 0 sampleNewYork).ns ≤ (Date 2015 7 1 8 0 0 0 sampleNewYork).ns ∧
    ∃ e, newEvent sampleClock (some ⟨"time-of-day", "06:00:00"⟩) true = (some e, none) ∧
      ∃ t1 t2, e.asTimestamp (sampleNewYorkClock (Date 2015 7 1 7 0 0 0 sampleNewYork))
          (Date 2015 7 1 7 0 0 0 sampleNewYork) = some t1 ∧
        e.asTimestamp (sampleNewYorkClock (Date 2015 7 1 7 0 0 0 sampleNewYork))
          (Date 2015 7 1 8 0 0 0 sampleNewYork) = some t2 ∧ t1.ns ≤ t2.ns :=
  ⟨Or.inl rfl, by decide, by decide, steadyAround_sampleNewYork _ (by decide) (by decide),
    steadyAround_sampleNewYork _ (by decide) (by decide), by decide, _, rfl,
    daily_monotone sampleClock (sampleNewYorkClock (Date 2015 7 1 7 0 0 0 sampleNewYork))
      "time-of-day" "06:00:00" true _ (Date 2015 7 1 7 0 0 0 sampleNewYork)
      (Date 2015 7 1 8 0 0 0 sampleNewYork) (-14400) (-14400) (Or.inl rfl) rfl (by decide)
      (by decide) (steadyAround_sampleNewYork _ (by decide) (by decide))
      (steadyAround_sampleNewYork _ (by decide) (by decide)) (by decide)⟩

end Scheduler
